import Mathlib

/-!
Verification of the QRCrypt core against its specification.

The development shallowly embeds the three subsystems the claims touch:

* the Shamir engine of `src/shamir.rs` (`split_secret`, `reconstruct_secret`,
  `validate_shares`), including a concrete model of the external GF(256)
  field arithmetic of the `vsss-rs` crate (per-byte polynomial splitting and
  Lagrange reconstruction, following the algorithm stated in the spec §4.2),
  the `bincode` fixed-int little-endian layout of `Vec<(u8, Vec<u8>)>`, and
  RFC 4648 standard base64 with padding;
* the crypto façade of `src/crypto.rs` (`encrypt`, `decrypt`,
  `encrypt_with_decoy`, `decrypt_layered`), with the external Argon2 KDF and
  AES-256-GCM AEAD replaced by ideal (symbolic) counterparts: the derived
  key is the (password, salt) pair, and an AEAD ciphertext remembers the key,
  nonce and plaintext that produced it, decryption succeeding exactly when
  key and nonce match (the idealization of GCM authenticity);
* the artifact codec of `src/qr.rs` / `src/utils.rs` (the outer
  `{data_type, content}` envelope and the loader fallbacks), over a small
  JSON value model; `serde_json` string parsing is abstracted by working on
  parsed JSON values, with the doubly serialized `content` field held as a
  parsed value.

Randomness (salts, nonces, polynomial coefficients) is passed explicitly.
Secrets handled by the Shamir engine are modelled at the byte level
(`List Nat`, each element `< 256`); the UTF-8 encode/decode steps at the
string boundary are external Rust stdlib and are treated as the identity on
the byte representation.
-/

namespace QRCrypt

/-! ### GF(256) field arithmetic

Model of the `Gf256` arithmetic the `vsss-rs` crate provides to
`src/shamir.rs`: the field of 256 elements with the AES reduction polynomial
`x^8 + x^4 + x^3 + x + 1` (0x11b), as described in spec §4.2. Addition is
XOR; multiplication is carry-less shift-and-add reduced by 0x11b. -/

/-- Multiplication by `x` in GF(256): shift left and reduce by 0x11b. -/
def xtime (b : Nat) : Nat :=
  let b2 := b <<< 1
  if b2 < 256 then b2 else b2 ^^^ 0x11b

/-- Iterated `xtime`: multiplication by `x^n`. -/
def xti : Nat → Nat → Nat
  | 0, b => b
  | n + 1, b => xtime (xti n b)

/-- Carry-less GF(256) product of two bytes: XOR of `x^k * b` over the set
bits `k` of `a`. -/
def gmul (a b : Nat) : Nat :=
  (if a.testBit 0 then xti 0 b else 0) ^^^
  (if a.testBit 1 then xti 1 b else 0) ^^^
  (if a.testBit 2 then xti 2 b else 0) ^^^
  (if a.testBit 3 then xti 3 b else 0) ^^^
  (if a.testBit 4 then xti 4 b else 0) ^^^
  (if a.testBit 5 then xti 5 b else 0) ^^^
  (if a.testBit 6 then xti 6 b else 0) ^^^
  (if a.testBit 7 then xti 7 b else 0)

/-- Precomputed multiplicative-inverse table for GF(256) (index 0 maps to 0);
`gmul_ginv` verifies every entry. Spec §9 calls for table-driven arithmetic. -/
def ginvTable : List Nat :=
  [0, 1, 141, 246, 203, 82, 123, 209, 232, 79, 41, 192, 176, 225, 229, 199,
   116, 180, 170, 75, 153, 43, 96, 95, 88, 63, 253, 204, 255, 64, 238, 178,
   58, 110, 90, 241, 85, 77, 168, 201, 193, 10, 152, 21, 48, 68, 162, 194,
   44, 69, 146, 108, 243, 57, 102, 66, 242, 53, 32, 111, 119, 187, 89, 25,
   29, 254, 55, 103, 45, 49, 245, 105, 167, 100, 171, 19, 84, 37, 233, 9,
   237, 92, 5, 202, 76, 36, 135, 191, 24, 62, 34, 240, 81, 236, 97, 23,
   22, 94, 175, 211, 73, 166, 54, 67, 244, 71, 145, 223, 51, 147, 33, 59,
   121, 183, 151, 133, 16, 181, 186, 60, 182, 112, 208, 6, 161, 250, 129, 130,
   131, 126, 127, 128, 150, 115, 190, 86, 155, 158, 149, 217, 247, 2, 185, 164,
   222, 106, 50, 109, 216, 138, 132, 114, 42, 20, 159, 136, 249, 220, 137, 154,
   251, 124, 46, 195, 143, 184, 101, 72, 38, 200, 18, 74, 206, 231, 210, 98,
   12, 224, 31, 239, 17, 117, 120, 113, 165, 142, 118, 61, 189, 188, 134, 87,
   11, 40, 47, 163, 218, 212, 228, 15, 169, 39, 83, 4, 27, 252, 172, 230,
   122, 7, 174, 99, 197, 219, 226, 234, 148, 139, 196, 213, 157, 248, 144, 107,
   177, 13, 214, 235, 198, 14, 207, 173, 8, 78, 215, 227, 93, 80, 30, 179,
   91, 35, 56, 52, 104, 70, 3, 140, 221, 156, 125, 160, 205, 26, 65, 28]

/-- GF(256) multiplicative inverse via the table (0 maps to 0). -/
def ginv (a : Nat) : Nat := ginvTable.getD a 0

/-- XOR of the masked bits of `a` over a list of masks. -/
def xorMasks (a : Nat) : List Nat → Nat
  | [] => 0
  | m :: ms => (a &&& m) ^^^ xorMasks a ms

/-- The eight bit masks of a byte. -/
def byteMasks : List Nat := [1, 2, 4, 8, 16, 32, 64, 128]

set_option maxRecDepth 2000 in
theorem xtime_lt : ∀ b, b < 256 → xtime b < 256 := by decide

set_option maxRecDepth 2000 in
theorem xtime_eq : ∀ b, b < 256 →
    xtime b = (b <<< 1) ^^^ (if b.testBit 7 then 0x11b else 0) := by decide

theorem xti_lt (n : Nat) : ∀ b, b < 256 → xti n b < 256 := by
  induction n with
  | zero => intro b hb; exact hb
  | succ k ih => intro b hb; exact xtime_lt _ (ih b hb)

theorem shiftLeft_one_xor (b c : Nat) :
    (b ^^^ c) <<< 1 = (b <<< 1) ^^^ (c <<< 1) := by
  apply Nat.eq_of_testBit_eq
  intro i
  simp only [Nat.testBit_shiftLeft, Nat.testBit_xor]
  cases h : decide (i ≥ 1) <;> simp [h]

theorem if_xor_split (p q : Bool) (t : Nat) :
    (if (p ^^ q) then t else 0) =
      ((if p then t else 0) ^^^ (if q then t else 0)) := by
  cases p <;> cases q <;> simp [Nat.xor_self]

theorem if_xor_distrib (p : Bool) (x y : Nat) :
    (if p then x ^^^ y else 0) =
      ((if p then x else 0) ^^^ (if p then y else 0)) := by
  cases p <;> simp

theorem xor_lt256 {x y : Nat} (hx : x < 256) (hy : y < 256) : x ^^^ y < 256 := by
  have h : x ^^^ y < 2 ^ 8 := Nat.xor_lt_two_pow (n := 8) hx hy
  simpa using h

theorem xtime_linear : ∀ b c, b < 256 → c < 256 →
    xtime (b ^^^ c) = xtime b ^^^ xtime c := by
  intro b c hb hc
  rw [xtime_eq _ (xor_lt256 hb hc), xtime_eq _ hb, xtime_eq _ hc,
    shiftLeft_one_xor, Nat.testBit_xor, if_xor_split]
  simp only [← Nat.xor_assoc]
  rw [Nat.xor_assoc (b <<< 1), Nat.xor_comm (c <<< 1), ← Nat.xor_assoc]

theorem xti_linear (n : Nat) : ∀ b c, b < 256 → c < 256 →
    xti n (b ^^^ c) = xti n b ^^^ xti n c := by
  induction n with
  | zero => intro b c _ _; rfl
  | succ k ih =>
    intro b c hb hc
    show xtime (xti k (b ^^^ c)) = xtime (xti k b) ^^^ xtime (xti k c)
    rw [ih b c hb hc, xtime_linear _ _ (xti_lt k b hb) (xti_lt k c hc)]

theorem xor_left_comm (a b c : Nat) : a ^^^ (b ^^^ c) = b ^^^ (a ^^^ c) := by
  rw [← Nat.xor_assoc, Nat.xor_comm a b, Nat.xor_assoc]

theorem gmul_zero_left (b : Nat) : gmul 0 b = 0 := by
  simp [gmul, Nat.zero_testBit]

theorem xti_zero (n : Nat) : xti n 0 = 0 := by
  induction n with
  | zero => rfl
  | succ k ih => show xtime (xti k 0) = 0; rw [ih]; rfl

theorem gmul_zero_right (a : Nat) : gmul a 0 = 0 := by
  simp [gmul, xti_zero]

theorem gmul_left_linear (a a' b : Nat) :
    gmul (a ^^^ a') b = gmul a b ^^^ gmul a' b := by
  unfold gmul
  simp only [Nat.testBit_xor, if_xor_split]
  simp only [Nat.xor_assoc]
  simp [Nat.xor_comm, xor_left_comm]

theorem gmul_right_linear (a b c : Nat) (hb : b < 256) (hc : c < 256) :
    gmul a (b ^^^ c) = gmul a b ^^^ gmul a c := by
  unfold gmul
  have h : ∀ k, xti k (b ^^^ c) = xti k b ^^^ xti k c := fun k =>
    xti_linear k b c hb hc
  simp only [h, if_xor_distrib]
  simp only [Nat.xor_assoc]
  simp [Nat.xor_comm, xor_left_comm]

theorem if_lt256 (p : Prop) [Decidable p] {x : Nat} (hx : x < 256) :
    (if p then x else 0) < 256 := by
  split
  · exact hx
  · omega

theorem gmul_lt (a b : Nat) (hb : b < 256) : gmul a b < 256 := by
  unfold gmul
  exact xor_lt256 (xor_lt256 (xor_lt256 (xor_lt256 (xor_lt256 (xor_lt256
    (xor_lt256 (if_lt256 _ (xti_lt 0 b hb)) (if_lt256 _ (xti_lt 1 b hb)))
    (if_lt256 _ (xti_lt 2 b hb))) (if_lt256 _ (xti_lt 3 b hb)))
    (if_lt256 _ (xti_lt 4 b hb))) (if_lt256 _ (xti_lt 5 b hb)))
    (if_lt256 _ (xti_lt 6 b hb))) (if_lt256 _ (xti_lt 7 b hb))

theorem xorMasks_lt {a : Nat} (ha : a < 256) :
    ∀ ms : List Nat, xorMasks a ms < 256 := by
  intro ms
  induction ms with
  | nil => exact Nat.zero_lt_succ _
  | cons m ms ih =>
    exact xor_lt256 (lt_of_le_of_lt (Nat.and_le_left) ha) ih

set_option maxRecDepth 2000 in
theorem byte_decomp : ∀ a, a < 256 → a = xorMasks a byteMasks := by decide

set_option maxRecDepth 2000 in
theorem and_mask_cases : ∀ a, a < 256 → ∀ m ∈ byteMasks,
    a &&& m = 0 ∨ a &&& m = m := by decide

theorem byteMasks_lt : ∀ m ∈ byteMasks, m < 256 := by decide

theorem byte_ext_aux {f g : Nat → Nat}
    (hf : ∀ x y, x < 256 → y < 256 → f (x ^^^ y) = f x ^^^ f y)
    (hg : ∀ x y, x < 256 → y < 256 → g (x ^^^ y) = g x ^^^ g y)
    (h0 : f 0 = g 0) {a : Nat} (ha : a < 256) :
    ∀ ms : List Nat, (∀ m ∈ ms, f (a &&& m) = g (a &&& m)) →
      f (xorMasks a ms) = g (xorMasks a ms) := by
  intro ms
  induction ms with
  | nil => intro _; exact h0
  | cons m ms ih =>
    intro heq
    have hm : a &&& m < 256 := lt_of_le_of_lt (Nat.and_le_left) ha
    have hxs : xorMasks a ms < 256 := xorMasks_lt ha ms
    show f ((a &&& m) ^^^ xorMasks a ms) = g ((a &&& m) ^^^ xorMasks a ms)
    rw [hf _ _ hm hxs, hg _ _ hm hxs, heq m (List.mem_cons_self m ms),
      ih (fun m' hm' => heq m' (List.mem_cons_of_mem m hm'))]

theorem byte_ext {f g : Nat → Nat}
    (hf : ∀ x y, x < 256 → y < 256 → f (x ^^^ y) = f x ^^^ f y)
    (hg : ∀ x y, x < 256 → y < 256 → g (x ^^^ y) = g x ^^^ g y)
    (h0 : f 0 = g 0)
    (hmask : ∀ m ∈ byteMasks, f m = g m) :
    ∀ a, a < 256 → f a = g a := by
  intro a ha
  have hmaskeq : ∀ m ∈ byteMasks, f (a &&& m) = g (a &&& m) := by
    intro m hm
    rcases and_mask_cases a ha m hm with h | h
    · rw [h]; exact h0
    · rw [h]; exact hmask m hm
  calc f a = f (xorMasks a byteMasks) := by rw [← byte_decomp a ha]
    _ = g (xorMasks a byteMasks) := byte_ext_aux hf hg h0 ha byteMasks hmaskeq
    _ = g a := by rw [← byte_decomp a ha]

set_option maxRecDepth 2000 in
theorem mask_mask_comm : ∀ m ∈ byteMasks, ∀ m' ∈ byteMasks,
    gmul m m' = gmul m' m := by decide

theorem mask_comm : ∀ m ∈ byteMasks, ∀ b, b < 256 → gmul m b = gmul b m := by
  intro m hm
  exact byte_ext
    (fun x y hx hy => gmul_right_linear m x y hx hy)
    (fun x y _ _ => gmul_left_linear x y m)
    (by rw [gmul_zero_right, gmul_zero_left])
    (fun m' hm' => mask_mask_comm m hm m' hm')

theorem gmul_comm : ∀ a, a < 256 → ∀ b, b < 256 → gmul a b = gmul b a := by
  intro a ha b hb
  exact byte_ext
    (fun x y _ _ => gmul_left_linear x y b)
    (fun x y hx hy => gmul_right_linear b x y hx hy)
    (by rw [gmul_zero_right, gmul_zero_left])
    (fun m hm => mask_comm m hm b hb) a ha

set_option maxRecDepth 2000 in
theorem mask3_assoc : ∀ m ∈ byteMasks, ∀ m' ∈ byteMasks, ∀ m'' ∈ byteMasks,
    gmul (gmul m m') m'' = gmul m (gmul m' m'') := by decide

theorem mask2_assoc : ∀ m ∈ byteMasks, ∀ m' ∈ byteMasks, ∀ c, c < 256 →
    gmul (gmul m m') c = gmul m (gmul m' c) := by
  intro m hm m' hm' c hc
  have hmlt : m' < 256 := byteMasks_lt m' hm'
  exact byte_ext
    (fun x y hx hy => gmul_right_linear (gmul m m') x y hx hy)
    (fun x y hx hy => by
      rw [gmul_right_linear m' x y hx hy,
        gmul_right_linear m _ _ (gmul_lt m' x hx) (gmul_lt m' y hy)])
    (by rw [gmul_zero_right, gmul_zero_right, gmul_zero_right])
    (fun m'' hm'' => mask3_assoc m hm m' hm' m'' hm'') c hc

theorem mask1_assoc : ∀ m ∈ byteMasks, ∀ b, b < 256 → ∀ c, c < 256 →
    gmul (gmul m b) c = gmul m (gmul b c) := by
  intro m hm b hb c hc
  exact byte_ext
    (fun y y' hy hy' => by
      rw [gmul_right_linear m y y' hy hy', gmul_left_linear])
    (fun y y' hy hy' => by
      rw [gmul_left_linear y y' c,
        gmul_right_linear m _ _ (gmul_lt y c hc) (gmul_lt y' c hc)])
    (by simp [gmul_zero_left, gmul_zero_right])
    (fun m' hm' => mask2_assoc m hm m' hm' c hc) b hb

theorem gmul_assoc : ∀ a, a < 256 → ∀ b, b < 256 → ∀ c, c < 256 →
    gmul (gmul a b) c = gmul a (gmul b c) := by
  intro a ha b hb c hc
  exact byte_ext
    (fun x x' _ _ => by rw [gmul_left_linear x x' b, gmul_left_linear])
    (fun x x' _ _ => gmul_left_linear x x' (gmul b c))
    (by rw [gmul_zero_left, gmul_zero_left, gmul_zero_left])
    (fun m hm => mask1_assoc m hm b hb c hc) a ha

theorem one_gmul (b : Nat) : gmul 1 b = b := by
  unfold gmul
  rw [show Nat.testBit 1 0 = true from rfl, show Nat.testBit 1 1 = false from rfl,
    show Nat.testBit 1 2 = false from rfl, show Nat.testBit 1 3 = false from rfl,
    show Nat.testBit 1 4 = false from rfl, show Nat.testBit 1 5 = false from rfl,
    show Nat.testBit 1 6 = false from rfl, show Nat.testBit 1 7 = false from rfl]
  simp [xti]

theorem gmul_one (a : Nat) (ha : a < 256) : gmul a 1 = a := by
  rw [gmul_comm a ha 1 (by omega), one_gmul]

set_option maxRecDepth 2000 in
theorem ginv_lt : ∀ a, a < 256 → ginv a < 256 := by decide

set_option maxRecDepth 4000 in
set_option maxHeartbeats 1000000 in
theorem gmul_ginv : ∀ a, a < 256 → a ≠ 0 → gmul a (ginv a) = 1 := by decide

theorem ginv_zero : ginv 0 = 0 := rfl

/-- An element of GF(256): a byte together with its range bound. -/
structure GF256 where
  val : Nat
  lt : val < 256

theorem GF256.ext {a b : GF256} (h : a.val = b.val) : a = b := by
  cases a; cases b; cases h; rfl

instance : DecidableEq GF256 := fun a b =>
  if h : a.val = b.val then .isTrue (GF256.ext h)
  else .isFalse (fun hab => h (congrArg GF256.val hab))

/-- Embed a byte into GF(256) (out-of-range values map to 0, unused). -/
def GF256.ofByte (n : Nat) : GF256 :=
  if h : n < 256 then ⟨n, h⟩ else ⟨0, by omega⟩

instance : Zero GF256 := ⟨⟨0, by omega⟩⟩
instance : One GF256 := ⟨⟨1, by omega⟩⟩
instance : Add GF256 := ⟨fun a b => ⟨a.val ^^^ b.val, xor_lt256 a.lt b.lt⟩⟩
instance : Neg GF256 := ⟨fun a => a⟩
instance : Mul GF256 := ⟨fun a b => ⟨gmul a.val b.val, gmul_lt a.val b.val b.lt⟩⟩
instance : Inv GF256 := ⟨fun a => ⟨ginv a.val, ginv_lt a.val a.lt⟩⟩

theorem GF256.add_val (a b : GF256) : (a + b).val = a.val ^^^ b.val := rfl
theorem GF256.mul_val (a b : GF256) : (a * b).val = gmul a.val b.val := rfl
theorem GF256.zero_val : (0 : GF256).val = 0 := rfl
theorem GF256.one_val : (1 : GF256).val = 1 := rfl

instance : CommRing GF256 where
  nsmul := nsmulRec
  zsmul := zsmulRec
  add_assoc a b c := GF256.ext (Nat.xor_assoc a.val b.val c.val)
  zero_add a := GF256.ext (Nat.zero_xor a.val)
  add_zero a := GF256.ext (Nat.xor_zero a.val)
  add_comm a b := GF256.ext (Nat.xor_comm a.val b.val)
  neg_add_cancel a := GF256.ext (Nat.xor_self a.val)
  mul_assoc a b c :=
    GF256.ext (gmul_assoc a.val a.lt b.val b.lt c.val c.lt)
  one_mul a := GF256.ext (one_gmul a.val)
  mul_one a := GF256.ext (gmul_one a.val a.lt)
  left_distrib a b c :=
    GF256.ext (gmul_right_linear a.val b.val c.val b.lt c.lt)
  right_distrib a b c := GF256.ext (gmul_left_linear a.val b.val c.val)
  zero_mul a := GF256.ext (gmul_zero_left a.val)
  mul_zero a := GF256.ext (gmul_zero_right a.val)
  mul_comm a b := GF256.ext (gmul_comm a.val a.lt b.val b.lt)

instance : Field GF256 where
  exists_pair_ne := ⟨0, 1, fun h => by
    have : (0 : GF256).val = (1 : GF256).val := congrArg GF256.val h
    simp [GF256.zero_val, GF256.one_val] at this⟩
  mul_inv_cancel a ha := by
    have hval : a.val ≠ 0 := fun h =>
      ha (GF256.ext (show a.val = (0 : GF256).val from h))
    apply GF256.ext
    show gmul a.val (ginv a.val) = 1
    exact gmul_ginv a.val a.lt hval
  inv_zero := by
    apply GF256.ext
    show ginv 0 = 0
    rfl
  nnqsmul := _
  qsmul := _

/-! ### Polynomial evaluation and Lagrange interpolation at zero

Executable forms of the spec §4.2 algorithm: `polyEval` is Horner evaluation
of `P(x) = c₀ + c₁x + …`, and `lagrangeAtZero` is the reconstruction formula
`b = Σᵢ yᵢ · Πₘ≠ᵢ xₘ/(xₘ − xᵢ)` used by `combine_shares`. -/

/-- Horner evaluation of a polynomial given by its coefficient list
(constant term first). -/
def polyEval {F : Type} [Field F] (coeffs : List F) (x : F) : F :=
  coeffs.foldr (fun c acc => c + x * acc) 0

/-- Lagrange interpolation of a list of points, evaluated at zero:
`Σᵢ yᵢ · Πⱼ≠ᵢ xⱼ · (xⱼ − xᵢ)⁻¹` (spec §4.2, with subtraction = XOR in
GF(256)). -/
def lagrangeAtZero {F : Type} [Field F] (pts : List (F × F)) : F :=
  ∑ i ∈ Finset.range pts.length,
    (pts.getD i (0, 0)).2 *
      ∏ j ∈ (Finset.range pts.length).erase i,
        ((pts.getD j (0, 0)).1 * ((pts.getD j (0, 0)).1 - (pts.getD i (0, 0)).1)⁻¹)

/-- The formal polynomial with the given coefficient list (constant first).
Proof-side bridge to Mathlib polynomials; not program code. -/
noncomputable def listPoly {F : Type} [Field F] (l : List F) : Polynomial F :=
  l.foldr (fun c p => Polynomial.C c + Polynomial.X * p) 0

theorem polyEval_eq_eval {F : Type} [Field F] (l : List F) (x : F) :
    polyEval l x = (listPoly l).eval x := by
  induction l with
  | nil => simp [polyEval, listPoly]
  | cons c t ih =>
    simp only [polyEval, listPoly, List.foldr] at *
    simp [ih]

theorem listPoly_degree_lt {F : Type} [Field F] (l : List F) :
    (listPoly l).degree < (l.length : WithBot ℕ) := by
  induction l with
  | nil =>
    show (0 : Polynomial F).degree < ((0 : ℕ) : WithBot ℕ)
    rw [Polynomial.degree_zero]
    exact WithBot.bot_lt_coe 0
  | cons c t ih =>
    show (Polynomial.C c + Polynomial.X * listPoly t).degree <
      ((t.length + 1 : ℕ) : WithBot ℕ)
    apply lt_of_le_of_lt (Polynomial.degree_add_le _ _)
    apply max_lt
    · apply lt_of_le_of_lt Polynomial.degree_C_le
      exact_mod_cast WithBot.coe_lt_coe.2 (Nat.succ_pos _)
    · apply lt_of_le_of_lt (Polynomial.degree_mul_le _ _)
      apply lt_of_le_of_lt (add_le_add_right Polynomial.degree_X_le _)
      rw [show ((t.length + 1 : ℕ) : WithBot ℕ) = 1 + (t.length : ℕ) by
        push_cast; ring]
      exact WithBot.add_lt_add_left (by simp) ih

theorem listPoly_coeff_zero {F : Type} [Field F] (c : F) (t : List F) :
    (listPoly (c :: t)).coeff 0 = c := by
  show (Polynomial.C c + Polynomial.X * listPoly t).coeff 0 = c
  simp [Polynomial.mul_coeff_zero]

theorem lagrangeAtZero_exact {F : Type} [Field F] [DecidableEq F]
    (pts : List (F × F)) (p : Polynomial F)
    (hinj : ∀ i, i < pts.length → ∀ j, j < pts.length →
      (pts.getD i (0, 0)).1 = (pts.getD j (0, 0)).1 → i = j)
    (hdeg : p.degree < (pts.length : WithBot ℕ))
    (hy : ∀ i, i < pts.length →
      (pts.getD i (0, 0)).2 = p.eval (pts.getD i (0, 0)).1) :
    lagrangeAtZero pts = p.coeff 0 := by
  classical
  set n := pts.length with hn
  set v : ℕ → F := fun i => (pts.getD i (0, 0)).1 with hv
  set r : ℕ → F := fun i => (pts.getD i (0, 0)).2 with hr
  have hvs : Set.InjOn v (Finset.range n) := by
    intro i hi j hj hij
    simp only [Finset.coe_range, Set.mem_Iio] at hi hj
    exact hinj i hi j hj hij
  have hcard : p.degree < ((Finset.range n).card : WithBot ℕ) := by
    rwa [Finset.card_range]
  have hp := Lagrange.eq_interpolate (s := Finset.range n) (v := v) (f := p)
    hvs hcard
  have hpr : Lagrange.interpolate (Finset.range n) v
      (fun i => Polynomial.eval (v i) p) =
      Lagrange.interpolate (Finset.range n) v r := by
    apply Lagrange.interpolate_eq_of_values_eq_on
    intro i hi
    rw [hr]
    exact (hy i (Finset.mem_range.1 hi)).symm
  have hev : p.coeff 0 =
      Polynomial.eval 0 (Lagrange.interpolate (Finset.range n) v r) := by
    rw [Polynomial.coeff_zero_eq_eval_zero, hp, hpr]
  rw [hev, Lagrange.interpolate_apply, Polynomial.eval_finset_sum]
  unfold lagrangeAtZero
  rw [← hn]
  apply Finset.sum_congr rfl
  intro i _
  rw [Polynomial.eval_mul, Polynomial.eval_C]
  congr 1
  show ∏ j ∈ (Finset.range n).erase i, (v j * (v j - v i)⁻¹) =
    Polynomial.eval 0 (Lagrange.basis (Finset.range n) v i)
  rw [Lagrange.basis, Polynomial.eval_prod]
  apply Finset.prod_congr rfl
  intro j _
  rw [Lagrange.basisDivisor, Polynomial.eval_mul, Polynomial.eval_C,
    Polynomial.eval_sub, Polynomial.eval_X, Polynomial.eval_C, zero_sub,
    mul_neg, ← neg_mul, ← inv_neg, neg_sub, mul_comm]

/-! ### bincode layout of `Vec<(u8, Vec<u8>)>`

Model of the external `bincode` 1.x default configuration used by
`src/shamir.rs` (`bincode::serialize` / `bincode::deserialize`): fixed-width
little-endian integers, `u64` length prefixes for `Vec`, `u8` as one byte.
`deserialize` reads the needed prefix of the input and ignores trailing
bytes. -/

/-- Little-endian 8-byte encoding of a `u64` length. -/
def le8 (n : Nat) : List Nat :=
  [n % 256, n / 256 % 256, n / 256 ^ 2 % 256, n / 256 ^ 3 % 256,
   n / 256 ^ 4 % 256, n / 256 ^ 5 % 256, n / 256 ^ 6 % 256, n / 256 ^ 7 % 256]

/-- Read a little-endian `u64` from the front of a byte list. -/
def readLE8 : List Nat → Option (Nat × List Nat)
  | b0 :: b1 :: b2 :: b3 :: b4 :: b5 :: b6 :: b7 :: rest =>
    some (b0 + 256 * b1 + 256 ^ 2 * b2 + 256 ^ 3 * b3 + 256 ^ 4 * b4 +
      256 ^ 5 * b5 + 256 ^ 6 * b6 + 256 ^ 7 * b7, rest)
  | _ => none

/-- bincode encoding of one `(u8, Vec<u8>)` pair. -/
def bincPair (p : Nat × List Nat) : List Nat :=
  p.1 :: (le8 p.2.length ++ p.2)

/-- bincode encoding of a `Vec<(u8, Vec<u8>)>`. -/
def bincEncode (l : List (Nat × List Nat)) : List Nat :=
  le8 l.length ++ (l.map bincPair).flatten

/-- Read `n` raw bytes from the front of a byte list. -/
def readBytes : Nat → List Nat → Option (List Nat × List Nat)
  | 0, rest => some ([], rest)
  | _ + 1, [] => none
  | n + 1, b :: rest => (readBytes n rest).map (fun p => (b :: p.1, p.2))

/-- Read one `(u8, Vec<u8>)` pair from the front of a byte list. -/
def readPair : List Nat → Option ((Nat × List Nat) × List Nat)
  | [] => none
  | x :: rest =>
    match readLE8 rest with
    | none => none
    | some (m, rest2) =>
      match readBytes m rest2 with
      | none => none
      | some (ys, rest3) => some ((x, ys), rest3)

/-- Read `n` pairs from the front of a byte list. -/
def readPairs : Nat → List Nat → Option (List (Nat × List Nat) × List Nat)
  | 0, rest => some ([], rest)
  | n + 1, l =>
    match readPair l with
    | none => none
    | some (p, rest) => (readPairs n rest).map (fun q => (p :: q.1, q.2))

/-- bincode decoding of a `Vec<(u8, Vec<u8>)>` (trailing bytes ignored, as
`bincode::deserialize` does). -/
def bincDecode (l : List Nat) : Option (List (Nat × List Nat)) :=
  match readLE8 l with
  | none => none
  | some (n, rest) =>
    match readPairs n rest with
    | none => none
    | some (ps, _) => some ps

theorem readLE8_le8 (n : Nat) (hn : n < 256 ^ 8) (rest : List Nat) :
    readLE8 (le8 n ++ rest) = some (n, rest) := by
  simp only [le8, List.cons_append, List.nil_append, readLE8]
  congr 1
  congr 1
  omega

theorem readBytes_append (ys rest : List Nat) :
    readBytes ys.length (ys ++ rest) = some (ys, rest) := by
  induction ys with
  | nil => rfl
  | cons b t ih => simp [readBytes, ih]

theorem readPair_append (p : Nat × List Nat) (hp : p.2.length < 256 ^ 8)
    (rest : List Nat) :
    readPair (bincPair p ++ rest) = some (p, rest) := by
  obtain ⟨x, ys⟩ := p
  simp [bincPair, readPair, List.append_assoc, readLE8_le8 _ hp,
    readBytes_append]

theorem readPairs_append (l : List (Nat × List Nat))
    (hl : ∀ p ∈ l, p.2.length < 256 ^ 8) (rest : List Nat) :
    readPairs l.length ((l.map bincPair).flatten ++ rest) = some (l, rest) := by
  induction l with
  | nil => rfl
  | cons p t ih =>
    simp [readPairs, List.append_assoc,
      readPair_append p (hl p (List.mem_cons_self p t)),
      ih (fun q hq => hl q (List.mem_cons_of_mem p hq))]

theorem bincDecode_encode (l : List (Nat × List Nat))
    (hlen : l.length < 256 ^ 8) (hl : ∀ p ∈ l, p.2.length < 256 ^ 8) :
    bincDecode (bincEncode l) = some l := by
  have h := readPairs_append l hl []
  rw [List.append_nil] at h
  simp [bincDecode, bincEncode, readLE8_le8 _ hlen, h]

theorem bincPair_bytes_lt (p : Nat × List Nat) (h1 : p.1 < 256)
    (h2 : ∀ y ∈ p.2, y < 256) : ∀ b ∈ bincPair p, b < 256 := by
  intro b hb
  simp only [bincPair, List.mem_cons, List.mem_append] at hb
  rcases hb with h | h | h
  · omega
  · simp only [le8, List.mem_cons, List.not_mem_nil] at h
    have : ∀ k : Nat, p.2.length / k % 256 < 256 := fun k =>
      Nat.mod_lt _ (by omega)
    rcases h with h | h | h | h | h | h | h | h | h <;>
      first
        | (subst h; exact Nat.mod_lt _ (by omega))
        | exact absurd h (by simp)
  · exact h2 b h

theorem bincEncode_bytes_lt (l : List (Nat × List Nat))
    (h1 : ∀ p ∈ l, p.1 < 256) (h2 : ∀ p ∈ l, ∀ y ∈ p.2, y < 256) :
    ∀ b ∈ bincEncode l, b < 256 := by
  intro b hb
  simp only [bincEncode, List.mem_append] at hb
  rcases hb with h | h
  · simp only [le8, List.mem_cons, List.not_mem_nil] at h
    rcases h with h | h | h | h | h | h | h | h | h <;>
      first
        | (subst h; exact Nat.mod_lt _ (by omega))
        | exact absurd h (by simp)
  · rw [List.mem_flatten] at h
    obtain ⟨xs, hxs, hbxs⟩ := h
    rw [List.mem_map] at hxs
    obtain ⟨p, hp, rfl⟩ := hxs
    exact bincPair_bytes_lt p (h1 p hp) (h2 p hp) b hbxs

/-! ### Base64 (standard alphabet, with padding)

Model of the external `base64` crate's `general_purpose::STANDARD` engine
used throughout the repository: RFC 4648 standard alphabet, canonical `=`
padding required on decode, non-zero trailing bits rejected. -/

/-- The standard base64 alphabet. -/
def b64Alphabet : List Char :=
  ['A', 'B', 'C', 'D', 'E', 'F', 'G', 'H', 'I', 'J', 'K', 'L', 'M',
   'N', 'O', 'P', 'Q', 'R', 'S', 'T', 'U', 'V', 'W', 'X', 'Y', 'Z',
   'a', 'b', 'c', 'd', 'e', 'f', 'g', 'h', 'i', 'j', 'k', 'l', 'm',
   'n', 'o', 'p', 'q', 'r', 's', 't', 'u', 'v', 'w', 'x', 'y', 'z',
   '0', '1', '2', '3', '4', '5', '6', '7', '8', '9', '+', '/']

/-- Encode a 6-bit value as a base64 character. -/
def encChar (n : Nat) : Char := b64Alphabet.getD n 'A'

/-- Decode a base64 character to its 6-bit value. -/
def decChar (c : Char) : Option Nat := b64Alphabet.findIdx? (· = c)

/-- Base64-encode a byte list (standard alphabet, padded). -/
def b64encode : List Nat → List Char
  | [] => []
  | [a] => [encChar (a / 4), encChar (a % 4 * 16), '=', '=']
  | [a, b] =>
    [encChar (a / 4), encChar (a % 4 * 16 + b / 16), encChar (b % 16 * 4), '=']
  | a :: b :: c :: rest =>
    encChar (a / 4) :: encChar (a % 4 * 16 + b / 16) ::
      encChar (b % 16 * 4 + c / 64) :: encChar (c % 64) :: b64encode rest

/-- Base64-decode a character list (canonical padding, trailing bits must be
zero, as the Rust STANDARD engine enforces). -/
def b64decode : List Char → Option (List Nat)
  | [] => some []
  | w :: x :: y :: z :: rest =>
    if z = '=' then
      if rest = [] then
        if y = '=' then
          match decChar w, decChar x with
          | some dw, some dx =>
            if dx % 16 = 0 then some [dw * 4 + dx / 16] else none
          | _, _ => none
        else
          match decChar w, decChar x, decChar y with
          | some dw, some dx, some dy =>
            if dy % 4 = 0 then
              some [dw * 4 + dx / 16, dx % 16 * 16 + dy / 4]
            else none
          | _, _, _ => none
      else none
    else
      match decChar w, decChar x, decChar y, decChar z with
      | some dw, some dx, some dy, some dz =>
        (b64decode rest).map
          (fun t => (dw * 4 + dx / 16) :: (dx % 16 * 16 + dy / 4) ::
            (dy % 4 * 64 + dz) :: t)
      | _, _, _, _ => none
  | _ => none

theorem decChar_encChar : ∀ n, n < 64 → decChar (encChar n) = some n := by decide

theorem encChar_ne_pad : ∀ n, n < 64 → encChar n ≠ '=' := by decide

theorem b64_roundtrip : ∀ l : List Nat, (∀ x ∈ l, x < 256) →
    b64decode (b64encode l) = some l
  | [], _ => rfl
  | [a], h => by
    have ha : a < 256 := h a (by simp)
    have h1 : a / 4 < 64 := by omega
    have h2 : a % 4 * 16 < 64 := by omega
    have h3 : a % 4 * 16 % 16 = 0 := by omega
    have e1 : a / 4 * 4 + a % 4 * 16 / 16 = a := by omega
    simp only [b64encode, b64decode, if_pos rfl, decChar_encChar _ h1,
      decChar_encChar _ h2, if_pos h3, e1]
    simp
  | [a, b], h => by
    have ha : a < 256 := h a (by simp)
    have hb : b < 256 := h b (by simp)
    have h1 : a / 4 < 64 := by omega
    have h2 : a % 4 * 16 + b / 16 < 64 := by omega
    have h3 : b % 16 * 4 < 64 := by omega
    have h4 : b % 16 * 4 % 4 = 0 := by omega
    have e1 : a / 4 * 4 + (a % 4 * 16 + b / 16) / 16 = a := by omega
    have e2 : (a % 4 * 16 + b / 16) % 16 * 16 + b % 16 * 4 / 4 = b := by omega
    simp only [b64encode, b64decode, if_pos rfl,
      if_neg (encChar_ne_pad _ h3), decChar_encChar _ h1, decChar_encChar _ h2,
      decChar_encChar _ h3, if_pos h4, e1, e2]
    simp
  | a :: b :: c :: d :: rest, h => by
    have ha : a < 256 := h a (by simp)
    have hb : b < 256 := h b (by simp)
    have hc : c < 256 := h c (by simp)
    have h1 : a / 4 < 64 := by omega
    have h2 : a % 4 * 16 + b / 16 < 64 := by omega
    have h3 : b % 16 * 4 + c / 64 < 64 := by omega
    have h4 : c % 64 < 64 := by omega
    have e1 : a / 4 * 4 + (a % 4 * 16 + b / 16) / 16 = a := by omega
    have e2 : (a % 4 * 16 + b / 16) % 16 * 16 + (b % 16 * 4 + c / 64) / 4 = b := by
      omega
    have e3 : (b % 16 * 4 + c / 64) % 4 * 64 + c % 64 = c := by omega
    have ih := b64_roundtrip (d :: rest)
      (fun x hx => h x (by simp at hx ⊢; tauto))
    simp only [b64encode, b64decode, if_neg (encChar_ne_pad _ h4),
      decChar_encChar _ h1, decChar_encChar _ h2, decChar_encChar _ h3,
      decChar_encChar _ h4, ih, Option.map_some', e1, e2, e3]
  | [a, b, c], h => by
    have ha : a < 256 := h a (by simp)
    have hb : b < 256 := h b (by simp)
    have hc : c < 256 := h c (by simp)
    have h1 : a / 4 < 64 := by omega
    have h2 : a % 4 * 16 + b / 16 < 64 := by omega
    have h3 : b % 16 * 4 + c / 64 < 64 := by omega
    have h4 : c % 64 < 64 := by omega
    have e1 : a / 4 * 4 + (a % 4 * 16 + b / 16) / 16 = a := by omega
    have e2 : (a % 4 * 16 + b / 16) % 16 * 16 + (b % 16 * 4 + c / 64) / 4 = b := by
      omega
    have e3 : (b % 16 * 4 + c / 64) % 4 * 64 + c % 64 = c := by omega
    simp only [b64encode, b64decode, if_neg (encChar_ne_pad _ h4),
      decChar_encChar _ h1, decChar_encChar _ h2, decChar_encChar _ h3,
      decChar_encChar _ h4, Option.map_some', e1, e2, e3]

/-! ### Error type (src/error.rs) -/

/-- The `QRCryptError` enum of `src/error.rs`.  Payloads that are foreign
error values in Rust (`std::io::Error`, `serde_json::Error`,
`base64::DecodeError`, hex errors) are carried as their display strings. -/
inductive QRCryptError where
  | Encryption (msg : String)
  | Decryption (msg : String)
  | QRGeneration (msg : String)
  | QRParsing (msg : String)
  | ShamirError (msg : String)
  | InvalidInput (msg : String)
  | Io (msg : String)
  | Serialization (msg : String)
  | Base64Decode (msg : String)
  | HexDecode (msg : String)
deriving DecidableEq

/-- The variant (kind) of an error, forgetting the message payload: the
discriminant a caller can branch on. -/
def QRCryptError.kind : QRCryptError → Nat
  | .Encryption _ => 0
  | .Decryption _ => 1
  | .QRGeneration _ => 2
  | .QRParsing _ => 3
  | .ShamirError _ => 4
  | .InvalidInput _ => 5
  | .Io _ => 6
  | .Serialization _ => 7
  | .Base64Decode _ => 8
  | .HexDecode _ => 9

/-- Decidable equality for `Except` results, for concrete evaluation. -/
instance {e a : Type} [DecidableEq e] [DecidableEq a] :
    DecidableEq (Except e a) := fun x y =>
  match x, y with
  | .ok u, .ok v =>
    if h : u = v then .isTrue (by rw [h])
    else .isFalse (fun hh => h (by cases hh; rfl))
  | .error u, .error v =>
    if h : u = v then .isTrue (by rw [h])
    else .isFalse (fun hh => h (by cases hh; rfl))
  | .ok _, .error _ => .isFalse (fun hh => by cases hh)
  | .error _, .ok _ => .isFalse (fun hh => by cases hh)

/-! ### Shamir engine (src/shamir.rs)

`ShamirSecretSharing::split_secret`, `reconstruct_secret` and
`validate_shares`.  The secret crosses the boundary as its UTF-8 bytes
(`List Nat`); the random GF(256) coefficients drawn from `OsRng` inside the
external `vsss_rs::shamir::split_secret` are an explicit argument
(`coeffs idx` lists the `k−1` coefficients for plaintext byte `idx`). -/

/-- The `ShamirShare` struct of `src/shamir.rs` (all integer fields are `u8`
in Rust; side conditions `< 256` appear as hypotheses where relevant). -/
structure ShamirShare where
  share_id : Nat
  threshold : Nat
  total_shares : Nat
  share_data : String
  version : Nat
deriving DecidableEq

/-- Base64-decode a Rust `String`. -/
def b64decodeStr (s : String) : Option (List Nat) := b64decode s.data

/-- Modelled from the spec (§4.2): the external `vsss_rs::shamir::split_secret`
for one GF(256) byte `b` — evaluate `P(x) = b + a₁x + … + a_{k-1}x^{k-1}`
at `x = 1..n`; share `i` is the pair `(i, P(i))` with the field value
serialized as its single byte. -/
def vsssSplitByte (n : Nat) (b : GF256) (coeffs : List GF256) :
    List (Nat × List Nat) :=
  (List.range n).map (fun i =>
    (i + 1, [(polyEval (b :: coeffs) (GF256.ofByte (i + 1))).val]))

/-- Modelled from the spec (§4.2): the external `vsss_rs::combine_shares`
for one byte — Lagrange interpolation at zero of the points
`(x, y)`, reading each share's single-byte field value. -/
def vsssCombine (shares : List (Nat × List Nat)) : GF256 :=
  lagrangeAtZero
    (shares.map (fun p => (GF256.ofByte p.1, GF256.ofByte (p.2.getD 0 0))))

/-- Model of `ShamirSecretSharing::split_secret` (src/shamir.rs lines 22-75). -/
def split_secret (secret : List Nat) (threshold total_shares : Nat)
    (coeffs : Nat → List GF256) : Except QRCryptError (List ShamirShare) :=
  if threshold = 0 ∨ total_shares = 0 then
    .error (.ShamirError "Threshold and total shares must be greater than 0")
  else if total_shares < threshold then
    .error (.ShamirError "Threshold cannot be greater than total shares")
  else
    let all_shares : List (List (Nat × List Nat)) :=
      secret.enum.map (fun p => vsssSplitByte total_shares
        (GF256.ofByte p.2) (coeffs p.1))
    .ok ((List.range total_shares).map (fun share_idx =>
      let share_data_for_share :=
        all_shares.map (fun byte_shares => byte_shares.getD share_idx (0, []))
      { share_id := share_idx + 1
        threshold := threshold
        total_shares := total_shares
        share_data :=
          String.mk (b64encode (bincEncode share_data_for_share))
        version := 1 }))

/-- Model of `ShamirSecretSharing::reconstruct_secret` (src/shamir.rs lines 77-173).
Returns the reconstructed byte string; the final `String::from_utf8`
re-encoding is the identity on the byte representation. -/
def reconstruct_secret (shares : List ShamirShare) :
    Except QRCryptError (List Nat) :=
  match shares with
  | [] => .error (.ShamirError "No shares provided")
  | first :: rest =>
    if rest.any (fun s => s.threshold != first.threshold ||
        s.total_shares != first.total_shares || s.version != first.version) then
      .error (.ShamirError "Inconsistent share parameters")
    else if first.version ≠ 1 then
      .error (.ShamirError ("Unsupported version: " ++ toString first.version))
    else if shares.length < first.threshold then
      .error (.ShamirError ("Insufficient shares: need " ++
        toString first.threshold ++ ", got " ++ toString shares.length))
    else
      match shares.mapM (fun s =>
          match b64decodeStr s.share_data with
          | none => Except.error
              (QRCryptError.ShamirError "Invalid base64 in share")
          | some bytes =>
            match bincDecode bytes with
            | none => Except.error
                (QRCryptError.ShamirError "Invalid share format")
            | some ps => Except.ok ps) with
      | .error e => .error e
      | .ok decoded_shares =>
        if decoded_shares.isEmpty then
          .error (.ShamirError "No decoded shares")
        else
          let byte_count := (decoded_shares.headD []).length
          if decoded_shares.any (fun sh => sh.length != byte_count) then
            .error (.ShamirError "Shares have inconsistent lengths")
          else
            .ok ((List.range byte_count).map (fun byte_idx =>
              (vsssCombine
                (decoded_shares.map (fun sh => sh.getD byte_idx (0, [])))).val))

/-- Structural insertion of a value into a sorted list (stands in for the
sort step of `sort_unstable`). -/
def insortNat (x : Nat) : List Nat → List Nat
  | [] => [x]
  | y :: t => if x ≤ y then x :: y :: t else y :: insortNat x t

/-- Sorting model for `Vec::sort_unstable` on `Vec<u8>`. -/
def sortNat (l : List Nat) : List Nat := l.foldr insortNat []

/-- The per-share loop of `validate_shares`: parameter agreement with the
first share, share-id range, base64 validity, in source order. -/
def validateLoop (first : ShamirShare) :
    List ShamirShare → Except QRCryptError Unit
  | [] => .ok ()
  | s :: rest =>
    if s.threshold != first.threshold || s.total_shares != first.total_shares ||
        s.version != first.version then
      .error (.ShamirError "Inconsistent share parameters")
    else if s.share_id = 0 ∨ s.total_shares < s.share_id then
      .error (.ShamirError ("Invalid share ID: " ++ toString s.share_id ++
        " (should be 1-" ++ toString s.total_shares ++ ")"))
    else
      match b64decodeStr s.share_data with
      | none => .error (.ShamirError "Invalid base64 encoding in share data")
      | some _ => validateLoop first rest

/-- Model of `ShamirSecretSharing::validate_shares` (src/shamir.rs lines 175-221). -/
def validate_shares (shares : List ShamirShare) : Except QRCryptError Unit :=
  match shares with
  | [] => .error (.ShamirError "No shares provided for validation")
  | first :: _ =>
    match validateLoop first shares with
    | .error e => .error e
    | .ok _ =>
      let share_ids := shares.map (fun s => s.share_id)
      if (sortNat share_ids).dedup.length ≠ shares.length then
        .error (.ShamirError "Duplicate share IDs detected")
      else .ok ()

/-- The decoded per-byte pair sequence carried by share `i` (0-based index)
of a split: one `(x, y)` pair per plaintext byte, `x = i + 1`. -/
def sharePayload (secret : List Nat) (coeffs : Nat → List GF256) (i : Nat) :
    List (Nat × List Nat) :=
  secret.enum.map (fun p =>
    (i + 1, [(polyEval (GF256.ofByte p.2 :: coeffs p.1)
      (GF256.ofByte (i + 1))).val]))

/-- The share emitted at 0-based index `i` by a successful split. -/
def mkSplitShare (secret : List Nat) (threshold total_shares : Nat)
    (coeffs : Nat → List GF256) (i : Nat) : ShamirShare :=
  { share_id := i + 1
    threshold := threshold
    total_shares := total_shares
    share_data := String.mk (b64encode (bincEncode (sharePayload secret coeffs i)))
    version := 1 }

theorem split_secret_ok (secret : List Nat) (threshold total_shares : Nat)
    (coeffs : Nat → List GF256) (h1 : threshold ≠ 0) (h2 : total_shares ≠ 0)
    (h3 : threshold ≤ total_shares) :
    split_secret secret threshold total_shares coeffs =
      .ok ((List.range total_shares).map
        (mkSplitShare secret threshold total_shares coeffs)) := by
  have hc1 : ¬ (threshold = 0 ∨ total_shares = 0) := by tauto
  have hc2 : ¬ total_shares < threshold := by omega
  simp only [split_secret, if_neg hc1, if_neg hc2, Except.ok.injEq]
  apply List.map_congr_left
  intro i hi
  have hilt : i < total_shares := List.mem_range.1 hi
  unfold mkSplitShare
  congr 2
  rw [List.map_map]
  unfold sharePayload
  apply congrArg
  apply congrArg
  apply List.map_congr_left
  intro p _
  simp only [Function.comp_apply, vsssSplitByte]
  rw [List.getD_eq_getElem _ _ (by simpa using hilt), List.getElem_map,
    List.getElem_range]

theorem sharePayload_length (secret : List Nat) (coeffs : Nat → List GF256)
    (i : Nat) : (sharePayload secret coeffs i).length = secret.length := by
  simp [sharePayload, List.enum_length]

theorem shareData_b64 (secret : List Nat) (threshold total_shares : Nat)
    (coeffs : Nat → List GF256) (i : Nat) (hi : i + 1 < 256) :
    b64decodeStr
        (mkSplitShare secret threshold total_shares coeffs i).share_data =
      some (bincEncode (sharePayload secret coeffs i)) := by
  have hbytes : ∀ b ∈ bincEncode (sharePayload secret coeffs i), b < 256 := by
    apply bincEncode_bytes_lt
    · intro p hp
      simp only [sharePayload, List.mem_map] at hp
      obtain ⟨q, _, rfl⟩ := hp
      omega
    · intro p hp y hy
      simp only [sharePayload, List.mem_map] at hp
      obtain ⟨q, _, rfl⟩ := hp
      simp only [List.mem_singleton] at hy
      subst hy
      exact (polyEval (GF256.ofByte q.2 :: coeffs q.1)
        (GF256.ofByte (i + 1))).lt
  show b64decode (String.mk (b64encode (bincEncode
    (sharePayload secret coeffs i)))).data = _
  exact b64_roundtrip _ hbytes

theorem sharePayload_binc (secret : List Nat) (coeffs : Nat → List GF256)
    (i : Nat) (hlen : secret.length < 256 ^ 8) :
    bincDecode (bincEncode (sharePayload secret coeffs i)) =
      some (sharePayload secret coeffs i) := by
  apply bincDecode_encode
  · rw [sharePayload_length]
    exact hlen
  · intro p hp
    simp only [sharePayload, List.mem_map] at hp
    obtain ⟨q, _, rfl⟩ := hp
    simp

theorem GF256.ofByte_val (b : Nat) (hb : b < 256) : (GF256.ofByte b).val = b := by
  simp [GF256.ofByte, hb]

theorem GF256.ofByte_val_self (a : GF256) : GF256.ofByte a.val = a :=
  GF256.ext (GF256.ofByte_val a.val a.lt)

theorem mapM_ok {α β : Type} (f : α → Except QRCryptError β) (g : α → β) :
    ∀ l : List α, (∀ a ∈ l, f a = .ok (g a)) → l.mapM f = .ok (l.map g) := by
  intro l
  induction l with
  | nil => intro _; rfl
  | cons a t ih =>
    intro h
    rw [List.mapM_cons, h a (List.mem_cons_self a t),
      ih (fun b hb => h b (List.mem_cons_of_mem a hb))]
    rfl

theorem combine_payload (secret : List Nat) (coeffs : Nat → List GF256)
    (k n : Nat) (is : List Nat) (byte_idx : Nat)
    (hbyte : byte_idx < secret.length)
    (hmem : ∀ i ∈ is, i < n) (hn : n ≤ 255) (hnodup : is.Nodup)
    (hk : 1 ≤ k) (hco : ∀ idx, (coeffs idx).length = k - 1)
    (hkis : k ≤ is.length) :
    vsssCombine ((is.map (fun i => sharePayload secret coeffs i)).map
        (fun sh => sh.getD byte_idx (0, []))) =
      GF256.ofByte (secret.getD byte_idx 0) := by
  rw [List.map_map]
  have henum : byte_idx < secret.enum.length := by
    rwa [List.enum_length]
  have hpt : ∀ i ∈ is,
      ((fun sh => sh.getD byte_idx (0, [])) ∘
          (fun i => sharePayload secret coeffs i)) i =
        (i + 1, [(polyEval
          (GF256.ofByte (secret.getD byte_idx 0) :: coeffs byte_idx)
          (GF256.ofByte (i + 1))).val]) := by
    intro i _
    simp only [Function.comp_apply, sharePayload]
    rw [List.getD_eq_getElem _ _ (by simpa [List.enum_length] using hbyte),
      List.getElem_map, List.getElem_enum,
      List.getD_eq_getElem _ _ hbyte]
  rw [List.map_congr_left hpt]
  unfold vsssCombine
  rw [List.map_map]
  have hpt2 : ∀ i ∈ is,
      ((fun p : Nat × List Nat =>
          (GF256.ofByte p.1, GF256.ofByte (p.2.getD 0 0))) ∘
        (fun i => (i + 1, [(polyEval
          (GF256.ofByte (secret.getD byte_idx 0) :: coeffs byte_idx)
          (GF256.ofByte (i + 1))).val]))) i =
        (GF256.ofByte (i + 1),
          polyEval (GF256.ofByte (secret.getD byte_idx 0) :: coeffs byte_idx)
            (GF256.ofByte (i + 1))) := by
    intro i _
    simp only [Function.comp_apply, List.getD_cons_zero]
    rw [GF256.ofByte_val_self]
  rw [List.map_congr_left hpt2]
  have hres := lagrangeAtZero_exact
    (is.map (fun i => (GF256.ofByte (i + 1),
      polyEval (GF256.ofByte (secret.getD byte_idx 0) :: coeffs byte_idx)
        (GF256.ofByte (i + 1)))))
    (listPoly (GF256.ofByte (secret.getD byte_idx 0) :: coeffs byte_idx))
    (by
      intro a ha b hb hab
      rw [List.length_map] at ha hb
      have e1 : (List.map (fun i => (GF256.ofByte (i + 1),
          polyEval (GF256.ofByte (secret.getD byte_idx 0) :: coeffs byte_idx)
            (GF256.ofByte (i + 1)))) is).getD a (0, 0) =
          (GF256.ofByte (is[a] + 1),
            polyEval (GF256.ofByte (secret.getD byte_idx 0) :: coeffs byte_idx)
              (GF256.ofByte (is[a] + 1))) := by
        rw [List.getD_eq_getElem _ _ (by simpa using ha), List.getElem_map]
      have e2 : (List.map (fun i => (GF256.ofByte (i + 1),
          polyEval (GF256.ofByte (secret.getD byte_idx 0) :: coeffs byte_idx)
            (GF256.ofByte (i + 1)))) is).getD b (0, 0) =
          (GF256.ofByte (is[b] + 1),
            polyEval (GF256.ofByte (secret.getD byte_idx 0) :: coeffs byte_idx)
              (GF256.ofByte (is[b] + 1))) := by
        rw [List.getD_eq_getElem _ _ (by simpa using hb), List.getElem_map]
      rw [e1, e2] at hab
      have hab' : GF256.ofByte (is[a] + 1) = GF256.ofByte (is[b] + 1) := by
        simpa using hab
      have ha' : is[a] + 1 < 256 := by
        have := hmem is[a] (List.getElem_mem ha); omega
      have hb' : is[b] + 1 < 256 := by
        have := hmem is[b] (List.getElem_mem hb); omega
      have : is[a] + 1 = is[b] + 1 := by
        have := congrArg GF256.val hab'
        rwa [GF256.ofByte_val _ ha', GF256.ofByte_val _ hb'] at this
      have : is[a] = is[b] := by omega
      exact (List.Nodup.getElem_inj_iff hnodup).1 this)
    (by
      apply lt_of_lt_of_le (listPoly_degree_lt _)
      have h1 : (GF256.ofByte (secret.getD byte_idx 0) ::
          coeffs byte_idx).length = k := by
        simp only [List.length_cons, hco]
        omega
      rw [h1, List.length_map]
      exact_mod_cast Nat.cast_le.2 hkis)
    (by
      intro a ha
      rw [List.length_map] at ha
      rw [List.getD_eq_getElem _ _ (by simpa using ha), List.getElem_map]
      exact polyEval_eq_eval _ _)
  rw [hres, listPoly_coeff_zero]

theorem reconstruct_of_split (secret : List Nat) (k n : Nat)
    (coeffs : Nat → List GF256) (T : List ShamirShare)
    (hsec : ∀ b ∈ secret, b < 256) (hlen : secret.length < 256 ^ 8)
    (hk : 1 ≤ k) (hkn : k ≤ n) (hn : n ≤ 255)
    (hco : ∀ idx, (coeffs idx).length = k - 1)
    (hT : T.Sublist ((List.range n).map (mkSplitShare secret k n coeffs)))
    (hTk : k ≤ T.length) :
    reconstruct_secret T = .ok secret := by
  obtain ⟨is, hsub, rfl⟩ := List.sublist_map_iff.1 hT
  have hnodup : is.Nodup := hsub.nodup (List.nodup_range n)
  have hmem : ∀ i ∈ is, i < n := fun i h => List.mem_range.1 (hsub.subset h)
  have hislen : k ≤ is.length := by simpa using hTk
  obtain ⟨i0, irest, rfl⟩ : ∃ i0 irest, is = i0 :: irest := by
    cases is with
    | nil => simp at hislen; omega
    | cons a t => exact ⟨a, t, rfl⟩
  rw [List.map_cons]
  show reconstruct_secret
    (mkSplitShare secret k n coeffs i0 ::
      irest.map (mkSplitShare secret k n coeffs)) = .ok secret
  have hany : (irest.map (mkSplitShare secret k n coeffs)).any
      (fun s => s.threshold != (mkSplitShare secret k n coeffs i0).threshold ||
        s.total_shares != (mkSplitShare secret k n coeffs i0).total_shares ||
        s.version != (mkSplitShare secret k n coeffs i0).version) = false := by
    rw [List.any_eq_false]
    intro s hs
    obtain ⟨i, _, rfl⟩ := List.mem_map.1 hs
    simp [mkSplitShare]
  have hdec : ∀ s ∈ (mkSplitShare secret k n coeffs i0 ::
      irest.map (mkSplitShare secret k n coeffs)),
      (match b64decodeStr s.share_data with
        | none =>
          Except.error (QRCryptError.ShamirError "Invalid base64 in share")
        | some bytes =>
          match bincDecode bytes with
          | none =>
            Except.error (QRCryptError.ShamirError "Invalid share format")
          | some ps => Except.ok ps) =
        Except.ok (sharePayload secret coeffs (s.share_id - 1)) := by
    intro s hs
    have hs' : s ∈ (i0 :: irest).map (mkSplitShare secret k n coeffs) := by
      simpa using hs
    obtain ⟨i, hi, rfl⟩ := List.mem_map.1 hs'
    have hi' : i + 1 < 256 := by have := hmem i hi; omega
    have hb64 : b64decodeStr (String.mk (b64encode (bincEncode
        (sharePayload secret coeffs i)))) =
        some (bincEncode (sharePayload secret coeffs i)) :=
      shareData_b64 secret k n coeffs i hi'
    simp only [mkSplitShare, hb64, sharePayload_binc secret coeffs i hlen]
    simp
  have hmapM := mapM_ok _
    (fun s : ShamirShare => sharePayload secret coeffs (s.share_id - 1)) _ hdec
  have hver : ¬ ((mkSplitShare secret k n coeffs i0).version ≠ 1) := by
    simp [mkSplitShare]
  have hlength : ¬ ((mkSplitShare secret k n coeffs i0 ::
      irest.map (mkSplitShare secret k n coeffs)).length <
        (mkSplitShare secret k n coeffs i0).threshold) := by
    simp only [mkSplitShare, List.length_cons, List.length_map]
    simp only [List.length_cons] at hislen
    omega
  simp only [reconstruct_secret, hany, Bool.false_eq_true, if_false,
    if_neg hver, if_neg hlength, hmapM]
  have hdecoded : (mkSplitShare secret k n coeffs i0 ::
      irest.map (mkSplitShare secret k n coeffs)).map
        (fun s : ShamirShare => sharePayload secret coeffs (s.share_id - 1)) =
      (i0 :: irest).map (fun i => sharePayload secret coeffs i) := by
    rw [show (mkSplitShare secret k n coeffs i0 ::
        irest.map (mkSplitShare secret k n coeffs)) =
      (i0 :: irest).map (mkSplitShare secret k n coeffs) from rfl,
      List.map_map]
    apply List.map_congr_left
    intro i _
    simp [mkSplitShare]
  rw [hdecoded]
  have hne : ((i0 :: irest).map
      (fun i => sharePayload secret coeffs i)).isEmpty = false := by
    simp
  rw [hne]
  have hhead : (((i0 :: irest).map
      (fun i => sharePayload secret coeffs i)).headD []).length =
      secret.length := by
    simp only [List.map_cons, List.headD_cons]
    exact sharePayload_length secret coeffs i0
  have hlens : ((i0 :: irest).map (fun i => sharePayload secret coeffs i)).any
      (fun sh => sh.length != secret.length) = false := by
    rw [List.any_eq_false]
    intro sh hsh
    obtain ⟨i, _, rfl⟩ := List.mem_map.1 hsh
    simp [sharePayload_length]
  simp only [hhead, hlens, Bool.false_eq_true, if_false]
  congr 1
  apply List.ext_get
  · simp
  · intro idx h1 h2
    rw [List.length_map, List.length_range] at h1
    have hbyte : idx < secret.length := h1
    rw [List.get_eq_getElem, List.get_eq_getElem, List.getElem_map,
      List.getElem_range]
    have hcomb := combine_payload secret coeffs k n (i0 :: irest) idx hbyte
      hmem hn hnodup hk hco hislen
    rw [hcomb, GF256.ofByte_val _ (by
      rw [List.getD_eq_getElem _ _ hbyte]
      exact hsec _ (List.getElem_mem hbyte)),
      List.getD_eq_getElem _ _ hbyte]

/-! ### Crypto façade (src/crypto.rs)

`Crypto::encrypt`, `decrypt`, `encrypt_with_decoy`, `decrypt_layered`.
The external Argon2 KDF and AES-256-GCM AEAD are idealized: a derived key
is the (password, salt) pair (Argon2 is injective in the model), and an
AEAD ciphertext remembers the key, nonce and plaintext that produced it,
decryption succeeding exactly when key and nonce match (GCM authenticity).
The salt and nonce drawn from `OsRng` are explicit arguments. -/

/-- Model of `SecretData` of src/crypto.rs (zeroization is a resource property not
modelled here). -/
structure SecretData where
  data : String
deriving DecidableEq

/-- The 32-byte key Argon2 derives from password and salt, idealized as the
pair itself.  At default parameters the hash output is exactly 32 bytes, so
the `key_bytes.len() < 32` guard in the source never fires. -/
structure DerivedKey where
  password : String
  salt : String
deriving DecidableEq

/-- An AES-256-GCM output (ciphertext ∥ 16-byte tag), idealized: the value
remembers key, nonce and plaintext; its base64 transport in the envelope is
absorbed into this opaque value. -/
structure AEADCiphertext where
  key : DerivedKey
  nonceBytes : List Nat
  plaintext : String
deriving DecidableEq

/-- Ideal AEAD encryption. -/
def aeadEncrypt (key : DerivedKey) (nonceBytes : List Nat) (pt : String) :
    AEADCiphertext :=
  ⟨key, nonceBytes, pt⟩

/-- Ideal AEAD decryption: succeeds exactly when key and nonce match (the
GCM tag check). -/
def aeadDecrypt (key : DerivedKey) (nonceBytes : List Nat)
    (c : AEADCiphertext) : Option String :=
  if c.key = key ∧ c.nonceBytes = nonceBytes then some c.plaintext else none

/-- Model of `EncryptedData` of src/crypto.rs: `nonce` and `salt` as stored in the
JSON envelope; `ciphertext` is the ideal AEAD value. -/
structure EncryptedData where
  nonce : String
  salt : String
  ciphertext : AEADCiphertext
  version : Nat
deriving DecidableEq

/-- Model of `LayeredData` of src/crypto.rs. -/
structure LayeredData where
  decoy_layer : EncryptedData
  hidden_layer : Option EncryptedData
  version : Nat
  decoy_hint : Option String
deriving DecidableEq

/-- Model of `SaltString::from_b64` validity (PHC salt string: 4 to 64
characters from the B64 alphabet, no padding). -/
def saltValid (s : String) : Bool :=
  decide (4 ≤ s.length) && decide (s.length ≤ 64) &&
    s.data.all (fun c => b64Alphabet.contains c)

namespace Crypto

/-- Model of `Crypto::encrypt` (src/crypto.rs lines 58-95); `salt` and `nonceBytes`
are the values drawn from `OsRng`.  Key derivation and AEAD encryption
cannot fail in the model, so the result is always `ok`. -/
def encrypt (data : SecretData) (password : String) (salt : String)
    (nonceBytes : List Nat) : Except QRCryptError EncryptedData :=
  .ok { nonce := String.mk (b64encode nonceBytes)
        salt := salt
        ciphertext := aeadEncrypt ⟨password, salt⟩ nonceBytes data.data
        version := 1 }

/-- Model of `Crypto::decrypt` (src/crypto.rs lines 97-141), in source order:
version gate, salt parse, key re-derivation, base64 decode of the nonce
(the ciphertext's own base64 decode is absorbed in the ideal value), nonce
length gate, AEAD open, UTF-8 re-validation (identity here). -/
def decrypt (encrypted : EncryptedData) (password : String) :
    Except QRCryptError SecretData :=
  if encrypted.version ≠ 1 then
    .error (.Decryption ("Unsupported version: " ++ toString encrypted.version))
  else if ¬ saltValid encrypted.salt then
    .error (.Decryption "Invalid salt")
  else
    match b64decodeStr encrypted.nonce with
    | none => .error (.Base64Decode "Invalid base64")
    | some nonce_bytes =>
      if nonce_bytes.length ≠ 12 then
        .error (.Decryption "Invalid nonce size")
      else
        match aeadDecrypt ⟨password, encrypted.salt⟩ nonce_bytes
            encrypted.ciphertext with
        | none => .error (.Decryption "AES-GCM decryption failed")
        | some pt => .ok ⟨pt⟩

/-- Model of `Crypto::encrypt_with_decoy` (src/crypto.rs lines 160-172): encrypts the
decoy layer, then the real layer, with independent salts and nonces; no
comparison of the two passwords happens anywhere. -/
def encrypt_with_decoy (real_data : SecretData) (real_password : String)
    (decoy_data : SecretData) (decoy_password : String)
    (decoy_hint : Option String) (decoy_salt real_salt : String)
    (decoy_nonce real_nonce : List Nat) : Except QRCryptError LayeredData :=
  match encrypt decoy_data decoy_password decoy_salt decoy_nonce with
  | .error e => .error e
  | .ok decoy_layer =>
    match encrypt real_data real_password real_salt real_nonce with
    | .error e => .error e
    | .ok hidden =>
      .ok { decoy_layer := decoy_layer
            hidden_layer := some hidden
            version := 1
            decoy_hint := decoy_hint }

/-- Model of `Crypto::decrypt_layered` (src/crypto.rs lines 175-189): decoy layer
first, then the hidden layer if present, else the auth failure. -/
def decrypt_layered (layered : LayeredData) (password : String) :
    Except QRCryptError (SecretData × Bool) :=
  match decrypt layered.decoy_layer password with
  | .ok decoy_data => .ok (decoy_data, false)
  | .error _ =>
    match layered.hidden_layer with
    | some hidden_layer =>
      match decrypt hidden_layer password with
      | .ok real_data => .ok (real_data, true)
      | .error _ => .error (.Decryption "Password does not match any layer")
    | none => .error (.Decryption "Password does not match any layer")

end Crypto

theorem decrypt_encrypt (data : SecretData) (password salt : String)
    (nonceBytes : List Nat) (hsalt : saltValid salt = true)
    (hnb : ∀ b ∈ nonceBytes, b < 256) (hlen : nonceBytes.length = 12)
    (enc : EncryptedData)
    (henc : Crypto.encrypt data password salt nonceBytes = .ok enc) :
    Crypto.decrypt enc password = .ok data := by
  rw [Crypto.encrypt, Except.ok.injEq] at henc
  subst henc
  unfold Crypto.decrypt
  rw [if_neg (by simp)]
  rw [if_neg (by simp [hsalt])]
  have hb64 : b64decodeStr (String.mk (b64encode nonceBytes)) =
      some nonceBytes := b64_roundtrip nonceBytes hnb
  simp only [hb64]
  rw [if_neg (by simp [hlen])]
  simp [aeadDecrypt, aeadEncrypt]

theorem decrypt_wrong_password (data : SecretData) (password password' salt :
    String) (nonceBytes : List Nat) (hp : password' ≠ password)
    (hsalt : saltValid salt = true) (hnb : ∀ b ∈ nonceBytes, b < 256)
    (hlen : nonceBytes.length = 12) (enc : EncryptedData)
    (henc : Crypto.encrypt data password salt nonceBytes = .ok enc) :
    Crypto.decrypt enc password' =
      .error (.Decryption "AES-GCM decryption failed") := by
  rw [Crypto.encrypt, Except.ok.injEq] at henc
  subst henc
  unfold Crypto.decrypt
  rw [if_neg (by simp)]
  rw [if_neg (by simp [hsalt])]
  have hb64 : b64decodeStr (String.mk (b64encode nonceBytes)) =
      some nonceBytes := b64_roundtrip nonceBytes hnb
  simp only [hb64]
  rw [if_neg (by simp [hlen])]
  have hkey : aeadDecrypt ⟨password', salt⟩ nonceBytes
      (aeadEncrypt ⟨password, salt⟩ nonceBytes data.data) = none := by
    unfold aeadDecrypt aeadEncrypt
    rw [if_neg]
    intro h
    exact hp (congrArg DerivedKey.password h.1).symm
  simp [hkey]

/-- The envelope `Crypto::encrypt` produces for given randomness. -/
def mkEnc (data : SecretData) (password salt : String) (nonceBytes : List Nat) :
    EncryptedData :=
  { nonce := String.mk (b64encode nonceBytes)
    salt := salt
    ciphertext := aeadEncrypt ⟨password, salt⟩ nonceBytes data.data
    version := 1 }

theorem encrypt_eq (data : SecretData) (password salt : String)
    (nonceBytes : List Nat) :
    Crypto.encrypt data password salt nonceBytes =
      .ok (mkEnc data password salt nonceBytes) := rfl

theorem encrypt_with_decoy_eq (real_data : SecretData) (real_password : String)
    (decoy_data : SecretData) (decoy_password : String)
    (decoy_hint : Option String) (decoy_salt real_salt : String)
    (decoy_nonce real_nonce : List Nat) :
    Crypto.encrypt_with_decoy real_data real_password decoy_data decoy_password
        decoy_hint decoy_salt real_salt decoy_nonce real_nonce =
      .ok { decoy_layer := mkEnc decoy_data decoy_password decoy_salt decoy_nonce
            hidden_layer := some (mkEnc real_data real_password real_salt
              real_nonce)
            version := 1
            decoy_hint := decoy_hint } := rfl

theorem decrypt_layered_decoy (real_data decoy_data : SecretData)
    (real_password decoy_password : String) (decoy_hint : Option String)
    (decoy_salt real_salt : String) (decoy_nonce real_nonce : List Nat)
    (L : LayeredData)
    (hL : Crypto.encrypt_with_decoy real_data real_password decoy_data
      decoy_password decoy_hint decoy_salt real_salt decoy_nonce real_nonce =
        .ok L)
    (hds : saltValid decoy_salt = true) (hdn : ∀ b ∈ decoy_nonce, b < 256)
    (hdl : decoy_nonce.length = 12) :
    Crypto.decrypt_layered L decoy_password = .ok (decoy_data, false) := by
  rw [encrypt_with_decoy_eq, Except.ok.injEq] at hL
  subst hL
  unfold Crypto.decrypt_layered
  rw [decrypt_encrypt decoy_data decoy_password decoy_salt decoy_nonce hds
    hdn hdl _ (encrypt_eq _ _ _ _)]

theorem decrypt_layered_real (real_data decoy_data : SecretData)
    (real_password decoy_password : String) (decoy_hint : Option String)
    (decoy_salt real_salt : String) (decoy_nonce real_nonce : List Nat)
    (L : LayeredData)
    (hL : Crypto.encrypt_with_decoy real_data real_password decoy_data
      decoy_password decoy_hint decoy_salt real_salt decoy_nonce real_nonce =
        .ok L)
    (hp : real_password ≠ decoy_password)
    (hds : saltValid decoy_salt = true) (hdn : ∀ b ∈ decoy_nonce, b < 256)
    (hdl : decoy_nonce.length = 12)
    (hrs : saltValid real_salt = true) (hrn : ∀ b ∈ real_nonce, b < 256)
    (hrl : real_nonce.length = 12) :
    Crypto.decrypt_layered L real_password = .ok (real_data, true) := by
  rw [encrypt_with_decoy_eq, Except.ok.injEq] at hL
  subst hL
  unfold Crypto.decrypt_layered
  rw [decrypt_wrong_password decoy_data decoy_password real_password
    decoy_salt decoy_nonce hp hds hdn hdl _ (encrypt_eq _ _ _ _)]
  show (match Crypto.decrypt (mkEnc real_data real_password real_salt
      real_nonce) real_password with
    | .ok real_data => Except.ok (real_data, true)
    | .error _ =>
      Except.error (QRCryptError.Decryption "Password does not match any layer")) =
    .ok (real_data, true)
  rw [decrypt_encrypt real_data real_password real_salt real_nonce hrs hrn
    hrl _ (encrypt_eq _ _ _ _)]

theorem decrypt_layered_other (real_data decoy_data : SecretData)
    (real_password decoy_password other_password : String)
    (decoy_hint : Option String) (decoy_salt real_salt : String)
    (decoy_nonce real_nonce : List Nat) (L : LayeredData)
    (hL : Crypto.encrypt_with_decoy real_data real_password decoy_data
      decoy_password decoy_hint decoy_salt real_salt decoy_nonce real_nonce =
        .ok L)
    (h1 : other_password ≠ decoy_password) (h2 : other_password ≠ real_password)
    (hds : saltValid decoy_salt = true) (hdn : ∀ b ∈ decoy_nonce, b < 256)
    (hdl : decoy_nonce.length = 12)
    (hrs : saltValid real_salt = true) (hrn : ∀ b ∈ real_nonce, b < 256)
    (hrl : real_nonce.length = 12) :
    Crypto.decrypt_layered L other_password =
      .error (.Decryption "Password does not match any layer") := by
  rw [encrypt_with_decoy_eq, Except.ok.injEq] at hL
  subst hL
  unfold Crypto.decrypt_layered
  rw [decrypt_wrong_password decoy_data decoy_password other_password
    decoy_salt decoy_nonce h1 hds hdn hdl _ (encrypt_eq _ _ _ _)]
  show (match Crypto.decrypt (mkEnc real_data real_password real_salt
      real_nonce) other_password with
    | .ok real_data => Except.ok (real_data, true)
    | .error _ =>
      Except.error (QRCryptError.Decryption "Password does not match any layer")) =
    _
  rw [decrypt_wrong_password real_data real_password other_password real_salt
    real_nonce h2 hrs hrn hrl _ (encrypt_eq _ _ _ _)]

/-! ### Artifact codec and loader fallbacks (src/qr.rs, src/utils.rs)

The outer `{data_type, content}` envelope and the loaders'
parse-failure fallbacks.  Inputs are JSON values as produced by an external
JSON text parser (`serde_json`); the doubly serialized `content` field (a
JSON string holding JSON text in Rust) is carried as its parsed value, the
text round-trip being external and bijective.  serde ignores unknown object
fields, so parsers look fields up by name. -/

/-- A JSON value. -/
inductive Json where
  | null
  | bool (b : Bool)
  | num (n : Int)
  | str (s : String)
  | arr (items : List Json)
  | obj (fields : List (String × Json))

/-- Look up an object field by name. -/
def getField (fields : List (String × Json)) (key : String) : Option Json :=
  (fields.find? (fun p => p.1 == key)).map (fun p => p.2)

/-- serde view of a `u8` field. -/
def asU8 (j : Json) : Option Nat :=
  match j with
  | .num n => if 0 ≤ n ∧ n ≤ 255 then some n.toNat else none
  | _ => none

/-- serde view of a `String` field. -/
def asStr (j : Json) : Option String :=
  match j with
  | .str s => some s
  | _ => none

/-- serde view of an `Option<T>` field: missing or `null` is `None`. -/
def asOpt {α : Type} (f : Json → Option α) : Option Json → Option (Option α)
  | none => some none
  | some .null => some none
  | some j => (f j).map some

/-- The `QRDataType` enum of src/qr.rs. -/
inductive QRDataType where
  | EncryptedSecret
  | ShamirShare
  | LayeredSecret
deriving DecidableEq

/-- The outer `QRData` envelope of src/qr.rs; `content` is held parsed. -/
structure QRData where
  data_type : QRDataType
  content : Json

/-- serde parse of the externally tagged unit enum `QRDataType`. -/
def parseDataType (j : Json) : Option QRDataType :=
  match j with
  | .str "EncryptedSecret" => some .EncryptedSecret
  | .str "ShamirShare" => some .ShamirShare
  | .str "LayeredSecret" => some .LayeredSecret
  | _ => none

/-- The codec-level view of `EncryptedData` (all fields as stored in JSON). -/
structure EncryptedDataRaw where
  nonce : String
  salt : String
  ciphertext : String
  version : Nat
deriving DecidableEq

/-- The codec-level view of `LayeredData`. -/
structure LayeredDataRaw where
  decoy_layer : EncryptedDataRaw
  hidden_layer : Option EncryptedDataRaw
  version : Nat
  decoy_hint : Option String
deriving DecidableEq

/-- Model of `serde_json::from_str::<EncryptedData>` on a parsed value. -/
def parseEncryptedJson (j : Json) : Option EncryptedDataRaw :=
  match j with
  | .obj fields =>
    match (getField fields "nonce").bind asStr,
        (getField fields "salt").bind asStr,
        (getField fields "ciphertext").bind asStr,
        (getField fields "version").bind asU8 with
    | some n, some s, some c, some v => some ⟨n, s, c, v⟩
    | _, _, _, _ => none
  | _ => none

/-- Model of `serde_json::from_str::<ShamirShare>` on a parsed value. -/
def parseShamirShareJson (j : Json) : Option ShamirShare :=
  match j with
  | .obj fields =>
    match (getField fields "share_id").bind asU8,
        (getField fields "threshold").bind asU8,
        (getField fields "total_shares").bind asU8,
        (getField fields "share_data").bind asStr,
        (getField fields "version").bind asU8 with
    | some i, some t, some n, some d, some v => some ⟨i, t, n, d, v⟩
    | _, _, _, _, _ => none
  | _ => none

/-- Model of `serde_json::from_str::<LayeredData>` on a parsed value. -/
def parseLayeredJson (j : Json) : Option LayeredDataRaw :=
  match j with
  | .obj fields =>
    match (getField fields "decoy_layer").bind parseEncryptedJson,
        asOpt parseEncryptedJson (getField fields "hidden_layer"),
        (getField fields "version").bind asU8,
        asOpt asStr (getField fields "decoy_hint") with
    | some d, some h, some v, some hint => some ⟨d, h, v, hint⟩
    | _, _, _, _ => none
  | _ => none

namespace QRReader

/-- Model of `QRReader::parse_qr_data` (src/qr.rs lines 421-424). -/
def parse_qr_data (j : Json) : Except QRCryptError QRData :=
  match j with
  | .obj fields =>
    match (getField fields "data_type").bind parseDataType with
    | none => .error (.QRParsing "Failed to parse QR data")
    | some dt =>
      match getField fields "content" with
      | none => .error (.QRParsing "Failed to parse QR data")
      | some c => .ok ⟨dt, c⟩
  | _ => .error (.QRParsing "Failed to parse QR data")

/-- Model of `QRReader::parse_encrypted_data` (src/qr.rs lines 426-434). -/
def parse_encrypted_data (qr : QRData) : Except QRCryptError EncryptedDataRaw :=
  match qr.data_type with
  | .EncryptedSecret =>
    match parseEncryptedJson qr.content with
    | some e => .ok e
    | none => .error (.QRParsing "Failed to parse encrypted data")
  | _ => .error (.QRParsing "QR code does not contain encrypted data")

/-- Model of `QRReader::parse_shamir_share` (src/qr.rs lines 436-444). -/
def parse_shamir_share (qr : QRData) : Except QRCryptError ShamirShare :=
  match qr.data_type with
  | .ShamirShare =>
    match parseShamirShareJson qr.content with
    | some s => .ok s
    | none => .error (.QRParsing "Failed to parse Shamir share")
  | _ => .error (.QRParsing "QR code does not contain Shamir share data")

/-- Model of `QRReader::parse_layered_data` (src/qr.rs lines 446-454). -/
def parse_layered_data (qr : QRData) : Except QRCryptError LayeredDataRaw :=
  match qr.data_type with
  | .LayeredSecret =>
    match parseLayeredJson qr.content with
    | some l => .ok l
    | none => .error (.QRParsing "Failed to parse layered data")
  | _ => .error (.QRParsing "QR code does not contain layered secret data")

end QRReader

/-- Model of `load_encrypted_from_data` (src/utils.rs lines 93-101): try the outer
envelope first, else fall back to a direct `EncryptedData` parse only. -/
def load_encrypted_from_data (j : Json) : Except QRCryptError EncryptedDataRaw :=
  match QRReader.parse_qr_data j with
  | .ok qr => QRReader.parse_encrypted_data qr
  | .error _ =>
    match parseEncryptedJson j with
    | some e => .ok e
    | none => .error (.InvalidInput "Invalid encrypted data format")

/-- Model of `load_shares_from_data` (src/utils.rs lines 63-79): per input, try the
outer envelope first, else fall back to a direct `ShamirShare` parse only. -/
def load_shares_from_data (data : List Json) :
    Except QRCryptError (List ShamirShare) :=
  data.mapM (fun j =>
    match QRReader.parse_qr_data j with
    | .ok qr => QRReader.parse_shamir_share qr
    | .error _ =>
      match parseShamirShareJson j with
      | some s => Except.ok s
      | none => Except.error (.InvalidInput "Invalid share data format"))

/-! ### Validation lemmas -/

theorem insortNat_perm (x : Nat) : ∀ l : List Nat,
    (insortNat x l).Perm (x :: l) := by
  intro l
  induction l with
  | nil => exact List.Perm.refl _
  | cons y t ih =>
    unfold insortNat
    split
    · exact List.Perm.refl _
    · exact (List.Perm.cons y ih).trans (List.Perm.swap x y t)

theorem sortNat_perm (l : List Nat) : (sortNat l).Perm l := by
  induction l with
  | nil => exact List.Perm.refl _
  | cons x t ih =>
    show (insortNat x (sortNat t)).Perm (x :: t)
    exact (insortNat_perm x (sortNat t)).trans (List.Perm.cons x ih)

theorem sorted_dedup_length_iff (l : List Nat) :
    (sortNat l).dedup.length = l.length ↔ l.Nodup := by
  have hp : (sortNat l).Perm l := sortNat_perm l
  constructor
  · intro h
    have hlen : (sortNat l).dedup.length = (sortNat l).length := by
      rw [h, hp.length_eq]
    have heq : (sortNat l).dedup = sortNat l :=
      ((sortNat l).dedup_sublist).eq_of_length hlen
    have : (sortNat l).Nodup := heq ▸ List.nodup_dedup (sortNat l)
    exact hp.nodup_iff.1 this
  · intro h
    have : (sortNat l).Nodup := hp.nodup_iff.2 h
    rw [List.dedup_eq_self.2 this, hp.length_eq]

theorem validateLoop_ok_iff (first : ShamirShare) (l : List ShamirShare) :
    validateLoop first l = .ok () ↔
      ∀ s ∈ l, s.threshold = first.threshold ∧
        s.total_shares = first.total_shares ∧ s.version = first.version ∧
        1 ≤ s.share_id ∧ s.share_id ≤ s.total_shares ∧
        (b64decodeStr s.share_data).isSome := by
  induction l with
  | nil => simp [validateLoop]
  | cons s rest ih =>
    unfold validateLoop
    constructor
    · intro h
      intro t ht
      by_cases h1 : (s.threshold != first.threshold ||
          s.total_shares != first.total_shares ||
          s.version != first.version) = true
      · rw [if_pos h1] at h
        exact absurd h (by simp)
      · rw [if_neg h1] at h
        by_cases h2 : s.share_id = 0 ∨ s.total_shares < s.share_id
        · rw [if_pos h2] at h
          exact absurd h (by simp)
        · rw [if_neg h2] at h
          have h1' : (s.threshold = first.threshold ∧
              s.total_shares = first.total_shares) ∧
              s.version = first.version := by
            simpa using h1
          rcases List.mem_cons.1 ht with rfl | ht
          · refine ⟨h1'.1.1, h1'.1.2, h1'.2, by omega, by omega, ?_⟩
            cases hb : b64decodeStr t.share_data with
            | none => rw [hb] at h; exact absurd h (by simp)
            | some v => simp
          · cases hb : b64decodeStr s.share_data with
            | none => rw [hb] at h; exact absurd h (by simp)
            | some v =>
              rw [hb] at h
              exact (ih.1 h) t ht
    · intro h
      have hs := h s (List.mem_cons_self s rest)
      have h1 : (s.threshold != first.threshold ||
          s.total_shares != first.total_shares ||
          s.version != first.version) = false := by
        simp [hs.1, hs.2.1, hs.2.2.1]
      rw [if_neg (by simp [h1])]
      have h2 : ¬ (s.share_id = 0 ∨ s.total_shares < s.share_id) := by
        have := hs.2.2.2.1
        have := hs.2.2.2.2.1
        omega
      rw [if_neg h2]
      cases hb : b64decodeStr s.share_data with
      | none =>
        rw [hb] at hs
        simp at hs
      | some v =>
        exact ih.2 (fun t ht => h t (List.mem_cons_of_mem s ht))

theorem validate_shares_ok_iff (first : ShamirShare) (rest : List ShamirShare) :
    validate_shares (first :: rest) = .ok () ↔
      ((∀ s ∈ first :: rest, s.threshold = first.threshold ∧
          s.total_shares = first.total_shares ∧ s.version = first.version ∧
          1 ≤ s.share_id ∧ s.share_id ≤ s.total_shares ∧
          (b64decodeStr s.share_data).isSome) ∧
        ((first :: rest).map (fun s => s.share_id)).Nodup) := by
  unfold validate_shares
  cases hv : validateLoop first (first :: rest) with
  | error e =>
    simp only [hv]
    constructor
    · intro h
      exact absurd h (by simp)
    · rintro ⟨hall, _⟩
      have h := (validateLoop_ok_iff first (first :: rest)).2 hall
      rw [hv] at h
      exact absurd h (by simp)
  | ok u =>
    cases u
    simp only [hv]
    by_cases hd : (sortNat ((first :: rest).map
        (fun s => s.share_id))).dedup.length = (first :: rest).length
    · rw [if_neg (fun hne => hne hd)]
      constructor
      · intro _
        refine ⟨(validateLoop_ok_iff _ _).1 hv, ?_⟩
        apply (sorted_dedup_length_iff _).1
        simpa using hd
      · intro _
        rfl
    · rw [if_pos hd]
      constructor
      · intro h
        exact absurd h (by simp)
      · rintro ⟨_, hnodup⟩
        exact absurd (by simpa using (sorted_dedup_length_iff _).2 hnodup) hd

theorem validate_shares_nil :
    validate_shares [] = .error (.ShamirError "No shares provided for validation") :=
  rfl

theorem reconstruct_insufficient_exact (first : ShamirShare)
    (rest : List ShamirShare)
    (hagree : ∀ s ∈ rest, s.threshold = first.threshold ∧
      s.total_shares = first.total_shares ∧ s.version = first.version)
    (hver : first.version = 1)
    (hshort : (first :: rest).length < first.threshold) :
    reconstruct_secret (first :: rest) =
      .error (.ShamirError ("Insufficient shares: need " ++
        toString first.threshold ++ ", got " ++
        toString (first :: rest).length)) := by
  have hany : (rest.any (fun s => s.threshold != first.threshold ||
      s.total_shares != first.total_shares ||
      s.version != first.version)) = false := by
    rw [List.any_eq_false]
    intro s hs
    have h := hagree s hs
    simp [h.1, h.2.1, h.2.2]
  simp only [reconstruct_secret, hany, Bool.false_eq_true, if_false,
    if_neg (by simp [hver] : ¬ first.version ≠ 1), if_pos hshort]

theorem reconstruct_short_error (first : ShamirShare) (rest : List ShamirShare)
    (hshort : (first :: rest).length < first.threshold) :
    ∃ e, reconstruct_secret (first :: rest) = .error e := by
  simp only [reconstruct_secret]
  by_cases h1 : (rest.any (fun s => s.threshold != first.threshold ||
      s.total_shares != first.total_shares ||
      s.version != first.version)) = true
  · exact ⟨_, by rw [if_pos h1]⟩
  · rw [if_neg h1]
    by_cases h2 : first.version ≠ 1
    · exact ⟨_, by rw [if_pos h2]⟩
    · rw [if_neg h2, if_pos hshort]
      exact ⟨_, rfl⟩

/-! ### The claims -/

/-- A fixed 12-byte nonce used by concrete witnesses. -/
def nonce12 : List Nat := [0, 1, 2, 3, 4, 5, 6, 7, 8, 9, 10, 11]

/-- C1: for every plaintext string `m` and password `p`, decrypting the
envelope produced by `encrypt(m, p)` with the same password `p` succeeds
and returns a `SecretData` whose `data` field equals `m` (AEAD
round-trip).  The salt and 12-byte nonce drawn from the OS RNG inside
`encrypt` are explicit, with the generator's guarantees (valid PHC salt,
twelve bytes) as hypotheses. -/
theorem aead_round_trip_c1 (m password salt : String) (nonceBytes : List Nat)
    (hsalt : saltValid salt = true) (hnb : ∀ b ∈ nonceBytes, b < 256)
    (hlen : nonceBytes.length = 12) (enc : EncryptedData)
    (henc : Crypto.encrypt ⟨m⟩ password salt nonceBytes = .ok enc) :
    Crypto.decrypt enc password = .ok ⟨m⟩ :=
  decrypt_encrypt ⟨m⟩ password salt nonceBytes hsalt hnb hlen enc henc

theorem aead_round_trip_c1_witness :
    Crypto.decrypt (mkEnc ⟨"my seed"⟩ "pw42" "SALTsalt" nonce12) "pw42" =
      .ok ⟨"my seed"⟩ :=
  aead_round_trip_c1 "my seed" "pw42" "SALTsalt" nonce12 (by decide)
    (by decide) (by decide) _ (encrypt_eq _ _ _ _)

/-- C2: for every secret `m` and parameters `1 ≤ k ≤ n ≤ 255`,
`split_secret(m, k, n)` succeeds (emitting the `n` listed shares), and
reconstructing from any size-`k` subset `T` of them returns `m` (Shamir
round-trip over GF(256)).  The `k−1` random GF(256) coefficients per
plaintext byte are explicit; the secret's byte length is bounded by the
`u64` length prefix of the share encoding. -/
theorem shamir_round_trip_c2 (secret : List Nat) (k n : Nat)
    (coeffs : Nat → List GF256) (T : List ShamirShare)
    (hsec : ∀ b ∈ secret, b < 256) (hslen : secret.length < 256 ^ 8)
    (hk : 1 ≤ k) (hkn : k ≤ n) (hn : n ≤ 255)
    (hco : ∀ idx, (coeffs idx).length = k - 1)
    (hT : T.Sublist ((List.range n).map (mkSplitShare secret k n coeffs)))
    (hTlen : T.length = k) :
    split_secret secret k n coeffs =
        .ok ((List.range n).map (mkSplitShare secret k n coeffs)) ∧
      reconstruct_secret T = .ok secret :=
  ⟨split_secret_ok secret k n coeffs (by omega) (by omega) hkn,
    reconstruct_of_split secret k n coeffs T hsec hslen hk hkn hn hco hT
      (le_of_eq hTlen.symm)⟩

theorem shamir_round_trip_c2_witness :
    split_secret [104, 105] 2 3 (fun _ => [⟨7, by omega⟩]) =
        .ok ((List.range 3).map
          (mkSplitShare [104, 105] 2 3 (fun _ => [⟨7, by omega⟩]))) ∧
      reconstruct_secret
        [mkSplitShare [104, 105] 2 3 (fun _ => [⟨7, by omega⟩]) 0,
         mkSplitShare [104, 105] 2 3 (fun _ => [⟨7, by omega⟩]) 2] =
        .ok [104, 105] :=
  shamir_round_trip_c2 [104, 105] 2 3 (fun _ => [⟨7, by omega⟩])
    [mkSplitShare [104, 105] 2 3 (fun _ => [⟨7, by omega⟩]) 0,
     mkSplitShare [104, 105] 2 3 (fun _ => [⟨7, by omega⟩]) 2]
    (by decide) (by decide) (by decide) (by decide) (by decide)
    (fun _ => rfl) (by decide) (by decide)

/-- C3: `split_secret` validates `0 < k ≤ n ≤ 255` (the upper bound holds
by the `u8` type), returning a `ShamirError` when `k = 0`, `n = 0`
(instantiated at `k' > n'` for the third failure), and on success emits
exactly `n` shares whose `i`-th element has `share_id = i + 1`,
`threshold = k`, `total_shares = n` and `version = 1`. -/
theorem split_validation_c3 (secret : List Nat) (coeffs : Nat → List GF256)
    (k n i k' n' : Nat) (hk : k ≠ 0) (hn : n ≠ 0) (hkn : k ≤ n)
    (hk' : k' ≠ 0) (hn' : n' ≠ 0) (hik : n' < k') :
    split_secret secret 0 n coeffs =
        .error (.ShamirError "Threshold and total shares must be greater than 0") ∧
      split_secret secret k 0 coeffs =
        .error (.ShamirError "Threshold and total shares must be greater than 0") ∧
      split_secret secret k' n' coeffs =
        .error (.ShamirError "Threshold cannot be greater than total shares") ∧
      ∃ shares, split_secret secret k n coeffs = .ok shares ∧
        shares.length = n ∧
        ∀ h : i < shares.length,
          (shares.get ⟨i, h⟩).share_id = i + 1 ∧
          (shares.get ⟨i, h⟩).threshold = k ∧
          (shares.get ⟨i, h⟩).total_shares = n ∧
          (shares.get ⟨i, h⟩).version = 1 := by
  refine ⟨?_, ?_, ?_, ?_⟩
  · unfold split_secret
    rw [if_pos (Or.inl rfl)]
  · unfold split_secret
    rw [if_pos (Or.inr rfl)]
  · unfold split_secret
    rw [if_neg (by tauto), if_pos hik]
  · refine ⟨_, split_secret_ok secret k n coeffs hk hn hkn, by simp, ?_⟩
    intro h
    rw [List.get_eq_getElem, List.getElem_map, List.getElem_range]
    exact ⟨rfl, rfl, rfl, rfl⟩

theorem split_validation_c3_witness :
    split_secret [104] 0 3 (fun _ => []) =
        .error (.ShamirError "Threshold and total shares must be greater than 0") ∧
      split_secret [104] 2 0 (fun _ => []) =
        .error (.ShamirError "Threshold and total shares must be greater than 0") ∧
      split_secret [104] 3 2 (fun _ => []) =
        .error (.ShamirError "Threshold cannot be greater than total shares") ∧
      ∃ shares, split_secret [104] 2 3 (fun _ => []) = .ok shares ∧
        shares.length = 3 ∧
        ∀ h : 1 < shares.length,
          (shares.get ⟨1, h⟩).share_id = 2 ∧
          (shares.get ⟨1, h⟩).threshold = 2 ∧
          (shares.get ⟨1, h⟩).total_shares = 3 ∧
          (shares.get ⟨1, h⟩).version = 1 :=
  split_validation_c3 [104] (fun _ => []) 2 3 1 3 2 (by decide) (by decide)
    (by decide) (by decide) (by decide) (by decide)

/-- C4 as stated is false: when the two passwords are equal, the decoy
layer wins, so `decrypt_layered` with `p_real` returns the decoy plaintext
paired with `is_real = false`, not the real plaintext with `true`.
Concretely, with both passwords `"P"`, the layered envelope decrypts to the
decoy. -/
theorem layered_routing_c4_counterexample :
    Crypto.encrypt_with_decoy ⟨"real"⟩ "P" ⟨"decoy"⟩ "P" none "SALTsalt"
        "TLAStlas" nonce12 nonce12 =
      .ok { decoy_layer := mkEnc ⟨"decoy"⟩ "P" "SALTsalt" nonce12
            hidden_layer := some (mkEnc ⟨"real"⟩ "P" "TLAStlas" nonce12)
            version := 1
            decoy_hint := none } ∧
    Crypto.decrypt_layered
      { decoy_layer := mkEnc ⟨"decoy"⟩ "P" "SALTsalt" nonce12
        hidden_layer := some (mkEnc ⟨"real"⟩ "P" "TLAStlas" nonce12)
        version := 1
        decoy_hint := none } "P" = .ok (⟨"decoy"⟩, false) ∧
    ((⟨"decoy"⟩ : SecretData), false) ≠ ((⟨"real"⟩ : SecretData), true) := by
  refine ⟨rfl, ?_, by decide⟩
  decide

/-- C4 (amended): given a `LayeredData` built from passwords
`(p_real, p_decoy)`, `decrypt_layered` attempts the decoy layer first:
with `p_decoy` it returns the decoy plaintext paired with
`is_real = false`; with `p_real` it returns the real plaintext paired with
`is_real = true` provided `p_real ≠ p_decoy` (with equal passwords the
decoy layer answers first); with a password matching neither layer it
fails with the auth-failure `Decryption` error. -/
theorem layered_routing_c4 (real_data decoy_data : SecretData)
    (real_password decoy_password other_password : String)
    (decoy_hint : Option String) (decoy_salt real_salt : String)
    (decoy_nonce real_nonce : List Nat) (L : LayeredData)
    (hL : Crypto.encrypt_with_decoy real_data real_password decoy_data
      decoy_password decoy_hint decoy_salt real_salt decoy_nonce real_nonce =
        .ok L)
    (hds : saltValid decoy_salt = true) (hdn : ∀ b ∈ decoy_nonce, b < 256)
    (hdl : decoy_nonce.length = 12)
    (hrs : saltValid real_salt = true) (hrn : ∀ b ∈ real_nonce, b < 256)
    (hrl : real_nonce.length = 12)
    (hp : real_password ≠ decoy_password)
    (h1 : other_password ≠ decoy_password)
    (h2 : other_password ≠ real_password) :
    Crypto.decrypt_layered L decoy_password = .ok (decoy_data, false) ∧
      Crypto.decrypt_layered L real_password = .ok (real_data, true) ∧
      Crypto.decrypt_layered L other_password =
        .error (.Decryption "Password does not match any layer") :=
  ⟨decrypt_layered_decoy real_data decoy_data real_password decoy_password
      decoy_hint decoy_salt real_salt decoy_nonce real_nonce L hL hds hdn hdl,
    decrypt_layered_real real_data decoy_data real_password decoy_password
      decoy_hint decoy_salt real_salt decoy_nonce real_nonce L hL hp hds hdn
      hdl hrs hrn hrl,
    decrypt_layered_other real_data decoy_data real_password decoy_password
      other_password decoy_hint decoy_salt real_salt decoy_nonce real_nonce L
      hL h1 h2 hds hdn hdl hrs hrn hrl⟩

theorem layered_routing_c4_witness :
    Crypto.decrypt_layered
        { decoy_layer := mkEnc ⟨"decoy"⟩ "D" "SALTsalt" nonce12
          hidden_layer := some (mkEnc ⟨"real"⟩ "R" "TLAStlas" nonce12)
          version := 1
          decoy_hint := none } "D" = .ok (⟨"decoy"⟩, false) ∧
      Crypto.decrypt_layered
        { decoy_layer := mkEnc ⟨"decoy"⟩ "D" "SALTsalt" nonce12
          hidden_layer := some (mkEnc ⟨"real"⟩ "R" "TLAStlas" nonce12)
          version := 1
          decoy_hint := none } "R" = .ok (⟨"real"⟩, true) ∧
      Crypto.decrypt_layered
        { decoy_layer := mkEnc ⟨"decoy"⟩ "D" "SALTsalt" nonce12
          hidden_layer := some (mkEnc ⟨"real"⟩ "R" "TLAStlas" nonce12)
          version := 1
          decoy_hint := none } "X" =
        .error (.Decryption "Password does not match any layer") :=
  layered_routing_c4 ⟨"real"⟩ ⟨"decoy"⟩ "R" "D" "X" none "SALTsalt" "TLAStlas"
    nonce12 nonce12 _ rfl (by decide) (by decide) (by decide) (by decide)
    (by decide) (by decide) (by decide) (by decide) (by decide)

/-- C5 as stated is false: the code collapses the wrong-password failure
and the corrupted-artifact failures for version, salt and nonce length into
the single `Decryption` variant of `QRCryptError` (only the message strings
differ), so those error kinds are not distinct.  Concretely, decrypting a
valid envelope with the wrong password and decrypting the same envelope
with `version = 2` produce errors of the same kind. -/
theorem error_kinds_c5_counterexample :
    Crypto.decrypt (mkEnc ⟨"m"⟩ "p" "SALTsalt" nonce12) "q" =
        .error (.Decryption "AES-GCM decryption failed") ∧
      Crypto.decrypt
          { mkEnc ⟨"m"⟩ "p" "SALTsalt" nonce12 with version := 2 } "p" =
        .error (.Decryption "Unsupported version: 2") ∧
      (QRCryptError.Decryption "AES-GCM decryption failed").kind =
        (QRCryptError.Decryption "Unsupported version: 2").kind := by
  refine ⟨by decide, by decide, rfl⟩

/-- C5 (amended): for every `m` and passwords `p ≠ p'`,
`decrypt(encrypt(m, p), p')` fails with the auth-failure error, which is of
the `Decryption` kind; an unsupported version, a malformed salt and a wrong
nonce length also yield the `Decryption` kind (distinguishable from the
auth failure only by message string, not by kind), while undecodable
base64 yields the distinct `Base64Decode` kind. -/
theorem error_kinds_c5 (m password password' salt : String)
    (nonceBytes : List Nat) (hp : password' ≠ password)
    (hsalt : saltValid salt = true) (hnb : ∀ b ∈ nonceBytes, b < 256)
    (hlen : nonceBytes.length = 12) (enc : EncryptedData)
    (henc : Crypto.encrypt ⟨m⟩ password salt nonceBytes = .ok enc) :
    Crypto.decrypt enc password' =
        .error (.Decryption "AES-GCM decryption failed") ∧
      Crypto.decrypt { enc with version := 2 } password =
        .error (.Decryption "Unsupported version: 2") ∧
      Crypto.decrypt { enc with salt := "!" } password =
        .error (.Decryption "Invalid salt") ∧
      Crypto.decrypt { enc with nonce := "!" } password =
        .error (.Base64Decode "Invalid base64") ∧
      Crypto.decrypt { enc with nonce := String.mk (b64encode [0]) } password =
        .error (.Decryption "Invalid nonce size") := by
  have hv2 : ∀ e : EncryptedData, e.version = 2 →
      Crypto.decrypt e password =
        .error (.Decryption "Unsupported version: 2") := by
    intro e he
    unfold Crypto.decrypt
    rw [if_pos (by rw [he]; decide), he]
    rfl
  have hsaltbad : ∀ e : EncryptedData, e.version = 1 → e.salt = "!" →
      Crypto.decrypt e password = .error (.Decryption "Invalid salt") := by
    intro e he hs
    unfold Crypto.decrypt
    rw [if_neg (by rw [he]; decide), if_pos (by rw [hs]; decide)]
  have hnonce1 : ∀ e : EncryptedData, e.version = 1 →
      saltValid e.salt = true → e.nonce = "!" →
      Crypto.decrypt e password = .error (.Base64Decode "Invalid base64") := by
    intro e he hs hn
    unfold Crypto.decrypt
    rw [if_neg (by rw [he]; decide), if_neg (by simp [hs]), hn]
    have hbad : b64decodeStr "!" = none := rfl
    simp only [hbad]
  have hnonce2 : ∀ e : EncryptedData, e.version = 1 →
      saltValid e.salt = true → e.nonce = String.mk (b64encode [0]) →
      Crypto.decrypt e password =
        .error (.Decryption "Invalid nonce size") := by
    intro e he hs hn
    unfold Crypto.decrypt
    rw [if_neg (by rw [he]; decide), if_neg (by simp [hs]), hn]
    have hone : b64decodeStr (String.mk (b64encode [0])) = some [0] :=
      b64_roundtrip [0] (by decide)
    simp only [hone]
    rw [if_pos (by decide)]
  rw [Crypto.encrypt, Except.ok.injEq] at henc
  subst henc
  exact ⟨decrypt_wrong_password ⟨m⟩ password password' salt nonceBytes hp
      hsalt hnb hlen _ rfl,
    hv2 _ rfl, hsaltbad _ rfl rfl, hnonce1 _ rfl hsalt rfl,
    hnonce2 _ rfl hsalt rfl⟩

theorem error_kinds_c5_witness :
    Crypto.decrypt (mkEnc ⟨"m"⟩ "p" "SALTsalt" nonce12) "q" =
        .error (.Decryption "AES-GCM decryption failed") ∧
      Crypto.decrypt
          { mkEnc ⟨"m"⟩ "p" "SALTsalt" nonce12 with version := 2 } "p" =
        .error (.Decryption "Unsupported version: 2") ∧
      Crypto.decrypt
          { mkEnc ⟨"m"⟩ "p" "SALTsalt" nonce12 with salt := "!" } "p" =
        .error (.Decryption "Invalid salt") ∧
      Crypto.decrypt
          { mkEnc ⟨"m"⟩ "p" "SALTsalt" nonce12 with nonce := "!" } "p" =
        .error (.Base64Decode "Invalid base64") ∧
      Crypto.decrypt
          { mkEnc ⟨"m"⟩ "p" "SALTsalt" nonce12 with
            nonce := String.mk (b64encode [0]) } "p" =
        .error (.Decryption "Invalid nonce size") :=
  error_kinds_c5 "m" "p" "q" "SALTsalt" nonce12 (by decide) (by decide)
    (by decide) (by decide) _ (encrypt_eq _ _ _ _)

/-- C6: a nonempty share list that passes the parameter-agreement and
version validation but is strictly shorter than the recorded threshold
makes `reconstruct_secret` fail with the insufficient-shares
`ShamirError`, and no secret is returned. -/
theorem reconstruct_insufficient_c6 (first : ShamirShare)
    (rest : List ShamirShare)
    (hagree : ∀ s ∈ rest, s.threshold = first.threshold ∧
      s.total_shares = first.total_shares ∧ s.version = first.version)
    (hver : first.version = 1)
    (hshort : (first :: rest).length < first.threshold) :
    reconstruct_secret (first :: rest) =
        .error (.ShamirError ("Insufficient shares: need " ++
          toString first.threshold ++ ", got " ++
          toString (first :: rest).length)) ∧
      (reconstruct_secret (first :: rest)).isOk = false := by
  have h := reconstruct_insufficient_exact first rest hagree hver hshort
  exact ⟨h, by rw [h]; rfl⟩

theorem reconstruct_insufficient_c6_witness :
    reconstruct_secret [⟨1, 3, 5, "AAAAAAAAAAA=", 1⟩, ⟨2, 3, 5, "AAAAAAAAAAA=", 1⟩] =
        .error (.ShamirError "Insufficient shares: need 3, got 2") ∧
      (reconstruct_secret
        [⟨1, 3, 5, "AAAAAAAAAAA=", 1⟩, ⟨2, 3, 5, "AAAAAAAAAAA=", 1⟩]).isOk =
        false :=
  reconstruct_insufficient_c6 ⟨1, 3, 5, "AAAAAAAAAAA=", 1⟩
    [⟨2, 3, 5, "AAAAAAAAAAA=", 1⟩] (by decide) (by decide) (by decide)

/-- C7: `validate_shares` succeeds exactly when the list is nonempty,
every share agrees with the first on `(version, threshold, total_shares)`,
every `share_id` lies in `1..=total_shares`, every `share_data` is valid
base64, and no two shares carry the same `share_id`; it errors in every
other case. -/
theorem validate_shares_c7 (shares : List ShamirShare) :
    validate_shares shares = .ok () ↔
      ∃ first rest, shares = first :: rest ∧
        (∀ s ∈ shares, s.threshold = first.threshold ∧
          s.total_shares = first.total_shares ∧ s.version = first.version) ∧
        (∀ s ∈ shares, 1 ≤ s.share_id ∧ s.share_id ≤ s.total_shares) ∧
        (∀ s ∈ shares, (b64decodeStr s.share_data).isSome) ∧
        (shares.map (fun s => s.share_id)).Nodup := by
  cases shares with
  | nil =>
    rw [validate_shares_nil]
    simp
  | cons first rest =>
    rw [validate_shares_ok_iff]
    constructor
    · rintro ⟨hall, hnodup⟩
      exact ⟨first, rest, rfl,
        fun s hs => ⟨(hall s hs).1, (hall s hs).2.1, (hall s hs).2.2.1⟩,
        fun s hs => ⟨(hall s hs).2.2.2.1, (hall s hs).2.2.2.2.1⟩,
        fun s hs => (hall s hs).2.2.2.2.2, hnodup⟩
    · rintro ⟨first', rest', heq, h1, h2, h3, hnodup⟩
      obtain ⟨rfl, rfl⟩ : first' = first ∧ rest' = rest := by
        cases heq
        exact ⟨rfl, rfl⟩
      exact ⟨fun s hs => ⟨(h1 s hs).1, (h1 s hs).2.1, (h1 s hs).2.2,
        (h2 s hs).1, (h2 s hs).2, h3 s hs⟩, hnodup⟩

/-- C8 as stated is false: `encrypt_with_decoy` never compares the two
passwords, so with `real_pwd = decoy_pwd` it silently returns an ordinary
`LayeredData` success — no warning sentinel exists in the result type and
no refusal occurs.  Concretely, with both passwords `"P"` the result is
the plain two-layer envelope. -/
theorem encrypt_with_decoy_c8_counterexample :
    Crypto.encrypt_with_decoy ⟨"real"⟩ "P" ⟨"decoy"⟩ "P" none "SALTsalt"
        "TLAStlas" nonce12 nonce12 =
      .ok { decoy_layer := mkEnc ⟨"decoy"⟩ "P" "SALTsalt" nonce12
            hidden_layer := some (mkEnc ⟨"real"⟩ "P" "TLAStlas" nonce12)
            version := 1
            decoy_hint := none } := rfl

/-- C8 (amended): `encrypt_with_decoy` performs no equality check on the
two passwords: for every input — including `real_pwd = decoy_pwd` — it
returns the ordinary `LayeredData` success built from the two
independently encrypted layers, emitting no warning and never refusing. -/
theorem encrypt_with_decoy_c8 (real_data decoy_data : SecretData)
    (real_password decoy_password : String) (decoy_hint : Option String)
    (decoy_salt real_salt : String) (decoy_nonce real_nonce : List Nat) :
    Crypto.encrypt_with_decoy real_data real_password decoy_data
        decoy_password decoy_hint decoy_salt real_salt decoy_nonce
        real_nonce =
      .ok { decoy_layer := mkEnc decoy_data decoy_password decoy_salt
              decoy_nonce
            hidden_layer := some (mkEnc real_data real_password real_salt
              real_nonce)
            version := 1
            decoy_hint := decoy_hint } := rfl

/-- C9 as stated is false: there is no classifier that falls back through
`EncryptedData`, then `ShamirShare`, then `LayeredData`.  Each loader
falls back only to its own expected shape: on an input that is not an
outer envelope but parses as a `ShamirShare`, `load_encrypted_from_data`
returns an `InvalidInput` error even though an inner shape parses. -/
theorem classifier_fallback_c9_counterexample :
    (QRReader.parse_qr_data (Json.obj
        [("share_id", Json.num 1), ("threshold", Json.num 2),
         ("total_shares", Json.num 3),
         ("share_data", Json.str "AAAAAAAAAAA="),
         ("version", Json.num 1)])).isOk = false ∧
      (parseShamirShareJson (Json.obj
        [("share_id", Json.num 1), ("threshold", Json.num 2),
         ("total_shares", Json.num 3),
         ("share_data", Json.str "AAAAAAAAAAA="),
         ("version", Json.num 1)])).isSome = true ∧
      load_encrypted_from_data (Json.obj
        [("share_id", Json.num 1), ("threshold", Json.num 2),
         ("total_shares", Json.num 3),
         ("share_data", Json.str "AAAAAAAAAAA="),
         ("version", Json.num 1)]) =
        .error (.InvalidInput "Invalid encrypted data format") :=
  ⟨rfl, rfl, rfl⟩

/-- C9 (amended): when the outer `{data_type, content}` parse fails, each
loader falls back only to its own expected inner shape —
`load_encrypted_from_data` attempts `EncryptedData` alone and
`load_shares_from_data` attempts `ShamirShare` alone, answering
`InvalidInput` when that single shape fails; no
`EncryptedData`/`ShamirShare`/`LayeredData` chain is tried. -/
theorem loader_fallback_c9 (j : Json) (e : QRCryptError)
    (h : QRReader.parse_qr_data j = .error e) :
    load_encrypted_from_data j =
        (match parseEncryptedJson j with
          | some enc => .ok enc
          | none => .error (.InvalidInput "Invalid encrypted data format")) ∧
      load_shares_from_data [j] =
        (match parseShamirShareJson j with
          | some s => .ok [s]
          | none => .error (.InvalidInput "Invalid share data format")) := by
  constructor
  · unfold load_encrypted_from_data
    rw [h]
  · show List.mapM _ [j] = _
    rw [List.mapM_cons]
    simp only [h]
    cases hp : parseShamirShareJson j with
    | none => rfl
    | some sh => rfl

theorem loader_fallback_c9_witness :
    load_encrypted_from_data (Json.obj
        [("share_id", Json.num 1), ("threshold", Json.num 2),
         ("total_shares", Json.num 3),
         ("share_data", Json.str "AAAAAAAAAAA="),
         ("version", Json.num 1)]) =
        (match parseEncryptedJson (Json.obj
          [("share_id", Json.num 1), ("threshold", Json.num 2),
           ("total_shares", Json.num 3),
           ("share_data", Json.str "AAAAAAAAAAA="),
           ("version", Json.num 1)]) with
          | some enc => .ok enc
          | none => .error (.InvalidInput "Invalid encrypted data format")) ∧
      load_shares_from_data [Json.obj
        [("share_id", Json.num 1), ("threshold", Json.num 2),
         ("total_shares", Json.num 3),
         ("share_data", Json.str "AAAAAAAAAAA="),
         ("version", Json.num 1)]] =
        (match parseShamirShareJson (Json.obj
          [("share_id", Json.num 1), ("threshold", Json.num 2),
           ("total_shares", Json.num 3),
           ("share_data", Json.str "AAAAAAAAAAA="),
           ("version", Json.num 1)]) with
          | some s => .ok [s]
          | none => .error (.InvalidInput "Invalid share data format")) :=
  loader_fallback_c9 (Json.obj
    [("share_id", Json.num 1), ("threshold", Json.num 2),
     ("total_shares", Json.num 3),
     ("share_data", Json.str "AAAAAAAAAAA="),
     ("version", Json.num 1)]) (.QRParsing "Failed to parse QR data") rfl

/-- C10: for `1 ≤ k ≤ n ≤ 255`, splitting the empty secret succeeds with
`n` shares, is independent of the random coefficients (the per-byte
splitting loop never runs, so the field-splitting routine is never
invoked), every emitted share's decoded per-byte sequence is empty, and
reconstructing from any size-`k` subset returns the empty byte string. -/
theorem empty_secret_c10 (k n : Nat) (coeffs coeffs' : Nat → List GF256)
    (s : ShamirShare) (T : List ShamirShare)
    (hk : 1 ≤ k) (hkn : k ≤ n) (hn : n ≤ 255)
    (hs : s ∈ (List.range n).map (mkSplitShare [] k n coeffs))
    (hT : T.Sublist ((List.range n).map (mkSplitShare [] k n coeffs)))
    (hTlen : T.length = k) :
    split_secret [] k n coeffs = split_secret [] k n coeffs' ∧
      split_secret [] k n coeffs =
        .ok ((List.range n).map (mkSplitShare [] k n coeffs)) ∧
      ((List.range n).map (mkSplitShare [] k n coeffs)).length = n ∧
      (b64decodeStr s.share_data).bind bincDecode = some [] ∧
      reconstruct_secret T = .ok [] := by
  refine ⟨rfl, split_secret_ok [] k n coeffs (by omega) (by omega) hkn,
    by simp, ?_, ?_⟩
  · obtain ⟨i, hi, rfl⟩ := List.mem_map.1 hs
    have hilt : i < n := List.mem_range.1 hi
    have hb64 : b64decodeStr (mkSplitShare [] k n coeffs i).share_data =
        some (bincEncode (sharePayload [] coeffs i)) :=
      shareData_b64 [] k n coeffs i (by omega)
    rw [hb64]
    show bincDecode (bincEncode (sharePayload [] coeffs i)) = some []
    rw [sharePayload_binc [] coeffs i (by decide)]
    rfl
  · have heq : (List.range n).map (mkSplitShare [] k n coeffs) =
        (List.range n).map
          (mkSplitShare [] k n (fun _ => List.replicate (k - 1) 0)) := rfl
    rw [heq] at hT
    exact reconstruct_of_split [] k n (fun _ => List.replicate (k - 1) 0) T
      (by simp) (by decide) hk hkn hn (fun idx => by simp) hT
      (le_of_eq hTlen.symm)

theorem empty_secret_c10_witness :
    split_secret [] 2 3 (fun _ => []) = split_secret [] 2 3 (fun _ => [1]) ∧
      split_secret [] 2 3 (fun _ => []) =
        .ok ((List.range 3).map (mkSplitShare [] 2 3 (fun _ => []))) ∧
      ((List.range 3).map (mkSplitShare [] 2 3 (fun _ => []))).length = 3 ∧
      (b64decodeStr (mkSplitShare [] 2 3 (fun _ => []) 0).share_data).bind
        bincDecode = some [] ∧
      reconstruct_secret
        [mkSplitShare [] 2 3 (fun _ => []) 0,
         mkSplitShare [] 2 3 (fun _ => []) 1] = .ok [] :=
  empty_secret_c10 2 3 (fun _ => []) (fun _ => [1])
    (mkSplitShare [] 2 3 (fun _ => []) 0)
    [mkSplitShare [] 2 3 (fun _ => []) 0, mkSplitShare [] 2 3 (fun _ => []) 1]
    (by decide) (by decide) (by decide) (by decide) (by decide) (by decide)
